import Mathlib

/-!
Verification of the nwcli wallet-multiplexer core against its specification.

The definitions below are a shallow embedding of the repository's core:

* the SQLite-backed ledger store (`utils/storage.ts`, given in the repo as an
  unnamed source file): sub-account rows, pending-invoice rows, and the exported
  store operations (`adjustBalance`, `updateBalances`, `registerPendingInvoice`,
  `updatePendingInvoiceState`, `deletePendingInvoice`, `findPendingInvoice`,
  `pruneExpiredPending`, `touchSubAccount`, `createSubAccount`);
* the credential vault (`encryptBuffer` / `decryptBuffer`), including a full
  executable AES-256-GCM (forward AES, CTR keystream, GHASH) so that the
  envelope claims can be settled bit-exactly;
* the manager layer (`src/wallet-service-manager.ts`): amount resolution
  (`msatsFromInvoice` / `resolveInvoiceAmount`), the `pay_invoice` handler, the
  settlement correlator (`settlePending` and the `payment_received`
  notification handler), the startup expiry prune, and the request router
  (the rxjs `groupBy`/`concatMap` pipeline of `start`).

The SQLite database is modelled as in-memory lists of rows.  ISO-8601
timestamps produced by `nowISO()` are threaded as explicit `String`
parameters; `Date.now()` readings are explicit `Int` parameters.  JavaScript
numbers holding msat amounts are modelled as `Int` (they are integral in all
code paths; in particular `adjustBalance` applies signed deltas and can drive a
balance negative, which the model must be able to represent).
-/

namespace NWCli

set_option maxRecDepth 8000

/-- Lexicographic byte-order comparison on strings, mirroring SQLite's
    default `BINARY` collation used by `ORDER BY updated_at DESC`
    (the timestamps compared are ASCII ISO-8601 strings). -/
def strLtAux : List Char → List Char → Bool
  | [], [] => false
  | [], _ :: _ => true
  | _ :: _, [] => false
  | a :: as, b :: bs =>
    if a.toNat < b.toNat then true
    else if b.toNat < a.toNat then false
    else strLtAux as bs

/-- `strLt a b` is true when `a` sorts strictly before `b`. -/
def strLt (a b : String) : Bool :=
  strLtAux a.toList b.toList

/-- A row of the `sub_accounts` table, as mapped by `mapSubAccountRow`.
    The two encrypted-secret BLOB columns are byte lists (envelopes per the
    credential vault). -/
structure SubAccountRecord where
  id : String
  label : String
  description : Option String
  relays : List String
  servicePubkey : String
  serviceSecret : List Nat
  clientPubkey : String
  clientSecret : List Nat
  balanceMsats : Int
  pendingMsats : Int
  metadata : Option String
  createdAt : String
  updatedAt : String
  lastUsedAt : Option String
  usageCount : Int
deriving Repr, DecidableEq

/-- The `state` column of `pending_invoices`:
    `'pending' | 'settled' | 'failed' | 'expired'`. -/
inductive PendingInvoiceState where
  | pending
  | settled
  | failed
  | expired
deriving Repr, DecidableEq

/-- A row of the `pending_invoices` table, as mapped by `mapPendingRow`.
    `expiresAt` is unix seconds (the column is `expires_at INTEGER`),
    `raw` keeps the serialized upstream payload. -/
structure PendingInvoiceRecord where
  id : String
  subAccountId : String
  invoice : Option String
  paymentHash : Option String
  descriptionHash : Option String
  amountMsats : Int
  state : PendingInvoiceState
  expiresAt : Option Int
  createdAt : String
  updatedAt : String
  settledAt : Option String
  raw : Option String
deriving Repr, DecidableEq

/-- The persistent ledger: the two tables of the SQLite database. -/
structure Store where
  subAccounts : List SubAccountRecord
  invoices : List PendingInvoiceRecord
deriving Repr, DecidableEq

/-- `SELECT * FROM sub_accounts WHERE id = $id` (first matching row). -/
def getSubAccountById (st : Store) (id : String) : Option SubAccountRecord :=
  st.subAccounts.find? (fun a => a.id = id)

/-- `SELECT * FROM pending_invoices WHERE id = $id` (first matching row),
    i.e. `getPendingInvoiceById`. -/
def getPendingInvoiceById (st : Store) (id : String) : Option PendingInvoiceRecord :=
  st.invoices.find? (fun i => i.id = id)

/-- `UPDATE sub_accounts SET ... WHERE id = $id`: applies `g` to every row
    whose `id` matches. -/
def updateSubAccountRows (l : List SubAccountRecord) (id : String)
    (g : SubAccountRecord → SubAccountRecord) : List SubAccountRecord :=
  l.map (fun a => if a.id = id then g a else a)

/-- `UPDATE pending_invoices SET ... WHERE id = $id`. -/
def updateInvoiceRows (l : List PendingInvoiceRecord) (id : String)
    (g : PendingInvoiceRecord → PendingInvoiceRecord) : List PendingInvoiceRecord :=
  l.map (fun i => if i.id = id then g i else i)

/-- The canonical aggregate:
    `SELECT COALESCE(SUM(amount_msats), 0) FROM pending_invoices
     WHERE sub_account_id = $id AND state = 'pending'`. -/
def pendingSumList (invs : List PendingInvoiceRecord) (subAccountId : String) : Int :=
  ((invs.filter (fun i => i.subAccountId = subAccountId ∧ i.state = .pending)).map
    (fun i => i.amountMsats)).sum

/-- `pendingSumList` over the store's invoice table. -/
def pendingSum (st : Store) (subAccountId : String) : Int :=
  pendingSumList st.invoices subAccountId

/-- `refreshPendingAggregate`: recomputes the canonical pending sum and writes
    it into the owner's `pending_msats` (stamping `updated_at = now`). -/
def refreshPendingAggregate (now : String) (st : Store) (subAccountId : String) : Store :=
  let total := pendingSum st subAccountId
  { st with
    subAccounts := updateSubAccountRows st.subAccounts subAccountId
      (fun a => { a with pendingMsats := total, updatedAt := now }) }

/-- `touchSubAccount`: `last_used_at = now, usage_count = usage_count + 1,
    updated_at = now` on the matching row. -/
def touchSubAccount (now : String) (st : Store) (id : String) : Store :=
  { st with
    subAccounts := updateSubAccountRows st.subAccounts id
      (fun a => { a with lastUsedAt := some now, usageCount := a.usageCount + 1,
                          updatedAt := now }) }

/-- `adjustBalance(subAccountId, deltaMsats)`: applies the signed delta with
    `balance_msats = balance_msats + $delta` (no guard of any kind), then
    re-reads the row; `none` models the thrown error when the row is absent
    (in which case the `UPDATE` matched nothing and the store is unchanged). -/
def adjustBalance (now : String) (st : Store) (subAccountId : String) (deltaMsats : Int) :
    Option (Store × SubAccountRecord) :=
  let st' : Store :=
    { st with
      subAccounts := updateSubAccountRows st.subAccounts subAccountId
        (fun a => { a with balanceMsats := a.balanceMsats + deltaMsats, updatedAt := now }) }
  match getSubAccountById st' subAccountId with
  | none => none
  | some r => some (st', r)

/-- Parameters of `updateBalances` (both fields optional, `??`-defaulted). -/
structure UpdateBalancesParams where
  subAccountId : String
  balanceMsats : Option Int
  pendingMsats : Option Int

/-- `updateBalances`: overwrites `balance_msats` / `pending_msats` with the
    supplied values (defaulting each to the current row value).  Note that a
    supplied `pendingMsats` is written verbatim, without recomputing the
    canonical sum. -/
def updateBalances (now : String) (st : Store) (params : UpdateBalancesParams) :
    Option (Store × SubAccountRecord) :=
  match getSubAccountById st params.subAccountId with
  | none => none
  | some record =>
    let updatedBalance := params.balanceMsats.getD record.balanceMsats
    let updatedPending := params.pendingMsats.getD record.pendingMsats
    let st' : Store :=
      { st with
        subAccounts := updateSubAccountRows st.subAccounts params.subAccountId
          (fun a => { a with balanceMsats := updatedBalance,
                              pendingMsats := updatedPending, updatedAt := now }) }
    match getSubAccountById st' params.subAccountId with
    | none => none
    | some r => some (st', r)

/-- `setPending(subAccountId, pendingMsats)` =
    `updateBalances({ subAccountId, pendingMsats })`. -/
def setPending (now : String) (st : Store) (subAccountId : String) (pendingMsats : Int) :
    Option (Store × SubAccountRecord) :=
  updateBalances now st { subAccountId, balanceMsats := none, pendingMsats := some pendingMsats }

/-- Parameters of `registerPendingInvoice`. -/
structure RegisterPendingParams where
  subAccountId : String
  id : String
  invoice : Option String
  paymentHash : Option String
  descriptionHash : Option String
  amountMsats : Int
  expiresAt : Option Int
  raw : Option String

/-- `registerPendingInvoice`: `INSERT INTO pending_invoices (..., state, ...)
    VALUES (..., 'pending', ...)` followed by `refreshPendingAggregate`.
    `none` models the SQLite constraint errors: duplicate primary key `id`, or
    a `sub_account_id` violating the foreign key (with `PRAGMA foreign_keys = ON`). -/
def registerPendingInvoice (now : String) (st : Store) (params : RegisterPendingParams) :
    Option (Store × PendingInvoiceRecord) :=
  if st.invoices.any (fun i => i.id = params.id) then none
  else if ¬ st.subAccounts.any (fun a => a.id = params.subAccountId) then none
  else
    let inv : PendingInvoiceRecord :=
      { id := params.id
        subAccountId := params.subAccountId
        invoice := params.invoice
        paymentHash := params.paymentHash
        descriptionHash := params.descriptionHash
        amountMsats := params.amountMsats
        state := .pending
        expiresAt := params.expiresAt
        createdAt := now
        updatedAt := now
        settledAt := none
        raw := params.raw }
    let st1 : Store := { st with invoices := st.invoices ++ [inv] }
    some (refreshPendingAggregate now st1 params.subAccountId, inv)

/-- `updatePendingInvoiceState(id, state, { settledAt? })`: looks the invoice
    up (returning `undefined` when absent, without touching the store), then
    unconditionally writes
    `state = $state, settled_at = $settled_at ?? NULL, updated_at = now`,
    refreshes the owner's aggregate, and returns the re-read row.  No
    transition is validated.  The result pairs the mutated store with the
    function's return value. -/
def updatePendingInvoiceState (now : String) (st : Store) (id : String)
    (state : PendingInvoiceState) (settledAt : Option String) :
    Store × Option PendingInvoiceRecord :=
  match getPendingInvoiceById st id with
  | none => (st, none)
  | some pending =>
    let st1 : Store :=
      { st with
        invoices := updateInvoiceRows st.invoices id
          (fun i => { i with state, settledAt, updatedAt := now }) }
    let st2 := refreshPendingAggregate now st1 pending.subAccountId
    (st2, getPendingInvoiceById st2 id)

/-- `deletePendingInvoice(id)`: no-op when the row is absent, else
    `DELETE FROM pending_invoices WHERE id = $id` plus aggregate refresh. -/
def deletePendingInvoice (now : String) (st : Store) (id : String) : Store :=
  match getPendingInvoiceById st id with
  | none => st
  | some pending =>
    let st1 : Store := { st with invoices := st.invoices.filter (fun i => ¬ i.id = id) }
    refreshPendingAggregate now st1 pending.subAccountId

/-- The three optional lookup fields of `findPendingInvoice`. -/
structure PendingLookupCriteria where
  paymentHash : Option String
  invoice : Option String
  descriptionHash : Option String

/-- One disjunct of the `findPendingInvoice` `WHERE` clause:
    `$field IS NOT NULL AND column = $field` (a row whose column is SQL NULL
    never matches). -/
def fieldMatches (column : Option String) (param : Option String) : Bool :=
  match param with
  | some v => column = some v
  | none => false

/-- The full `WHERE` clause of `findPendingInvoice`: a plain disjunction of
    the three field equalities. -/
def matchesCriteria (c : PendingLookupCriteria) (i : PendingInvoiceRecord) : Bool :=
  fieldMatches i.paymentHash c.paymentHash ||
  fieldMatches i.invoice c.invoice ||
  fieldMatches i.descriptionHash c.descriptionHash

/-- `ORDER BY updated_at DESC LIMIT 1` over the matching rows: keeps the row
    with the largest `updated_at`.  SQLite leaves the order of equal keys
    unspecified; the model resolves ties to the earliest table row. -/
def pickLatest (best : Option PendingInvoiceRecord) (i : PendingInvoiceRecord) :
    Option PendingInvoiceRecord :=
  match best with
  | none => some i
  | some b => if strLt b.updatedAt i.updatedAt then some i else some b

/-- `findPendingInvoice(criteria)`: single `SELECT` with the disjunctive
    `WHERE` clause and `ORDER BY updated_at DESC LIMIT 1`. -/
def findPendingInvoice (st : Store) (c : PendingLookupCriteria) :
    Option PendingInvoiceRecord :=
  (st.invoices.filter (matchesCriteria c)).foldl pickLatest none

/-- The selection of `pruneExpiredPending`:
    `expires_at IS NOT NULL AND expires_at <= $cutoff` — note: no condition on
    `state`. -/
def expiredSelect (cutoff : Int) (i : PendingInvoiceRecord) : Bool :=
  match i.expiresAt with
  | some e => e ≤ cutoff
  | none => false

/-- `DELETE FROM pending_invoices WHERE id = $id` (no refresh). -/
def deleteInvoiceRows (st : Store) (id : String) : Store :=
  { st with invoices := st.invoices.filter (fun i => ¬ i.id = id) }

/-- `pruneExpiredPending(now)`: selects every row with a non-null
    `expires_at <= cutoff` (in any state), then loops: `DELETE` the row by id
    and refresh its owner's aggregate.  Returns the selected rows. -/
def pruneExpiredPending (now : String) (st : Store) (cutoff : Int) :
    Store × List PendingInvoiceRecord :=
  let expired := st.invoices.filter (expiredSelect cutoff)
  let final := expired.foldl
    (fun acc row => refreshPendingAggregate now (deleteInvoiceRows acc row.id) row.subAccountId)
    st
  (final, expired)

/-- Parameters of `createSubAccount` after secret generation and key
    derivation: the store function generates 32 random bytes per missing
    secret and derives the pubkeys with `nostr-tools`' `getPublicKey`; those
    cryptographic steps happen outside the ledger and enter the model as the
    already-derived values, together with the two encrypted secret envelopes. -/
structure CreateSubAccountRow where
  id : String
  label : String
  description : Option String
  relays : List String
  servicePubkey : String
  serviceSecretEncrypted : List Nat
  clientPubkey : String
  clientSecretEncrypted : List Nat
  metadata : Option String

/-- `createSubAccount`: single `INSERT` with zero balances and
    `usage_count = 0`; `none` models the SQLite uniqueness errors on the
    primary key and the two `UNIQUE` pubkey columns. -/
def createSubAccount (now : String) (st : Store) (p : CreateSubAccountRow) :
    Option (Store × SubAccountRecord) :=
  if st.subAccounts.any (fun a =>
      a.id = p.id ∨ a.servicePubkey = p.servicePubkey ∨ a.clientPubkey = p.clientPubkey)
  then none
  else
    let row : SubAccountRecord :=
      { id := p.id
        label := p.label
        description := p.description
        relays := p.relays
        servicePubkey := p.servicePubkey
        serviceSecret := p.serviceSecretEncrypted
        clientPubkey := p.clientPubkey
        clientSecret := p.clientSecretEncrypted
        balanceMsats := 0
        pendingMsats := 0
        metadata := p.metadata
        createdAt := now
        updatedAt := now
        lastUsedAt := none
        usageCount := 0 }
    some ({ st with subAccounts := st.subAccounts ++ [row] }, row)

/-- Invariant I-1: every sub-account's denormalized `pending_msats` equals the
    canonical sum over its pending invoices. -/
def aggregateOk (st : Store) : Prop :=
  ∀ a ∈ st.subAccounts, a.pendingMsats = pendingSum st a.id

/-- Referential well-formedness of the database: primary keys of both tables
    are unique (SQLite `PRIMARY KEY`), and every invoice's `sub_account_id`
    references an existing sub-account row (`FOREIGN KEY` with
    `PRAGMA foreign_keys = ON`). -/
def storeWf (st : Store) : Prop :=
  (st.subAccounts.map (fun a => a.id)).Nodup ∧
  (st.invoices.map (fun i => i.id)).Nodup ∧
  ∀ i ∈ st.invoices, ∃ a ∈ st.subAccounts, a.id = i.subAccountId

/-! ## Manager layer (`src/wallet-service-manager.ts`) -/

/-- `msatsFromInvoice`: extracts the BOLT11-embedded amount.  The external
    `parseBolt11` call is the `parse` parameter (the parsed `amount` field, an
    integral msat count when present); the function keeps it only when it is a
    finite number strictly greater than zero. -/
def msatsFromInvoice (parse : String → Option Int) (invoice : String) : Option Int :=
  match parse invoice with
  | some a => if 0 < a then some a else none
  | none => none

/-- `resolveInvoiceAmount(invoice, fallback)`: the embedded amount wins when
    present; otherwise a strictly positive supplied `fallback`; otherwise the
    `"Invoice does not include an amount"` error, modelled as `none`. -/
def resolveInvoiceAmount (parse : String → Option Int) (invoice : String)
    (fallback : Option Int) : Option Int :=
  match msatsFromInvoice parse invoice with
  | some embedded => some embedded
  | none =>
    match fallback with
    | some f => if 0 < f then some f else none
    | none => none

/-- The errors the `pay_invoice` handler can throw. -/
inductive PayError where
  | subAccountNotFound
  | missingAmount
  | insufficientBalance
  | upstreamFailure
deriving Repr, DecidableEq

/-- The `pay_invoice` handler from `buildHandlers`: re-reads the record,
    resolves the amount, throws `"Insufficient balance"` when
    `record.balanceMsats < amountMsats`, calls the upstream adapter (whose
    success is the `upstreamOk` parameter; a rejection propagates before any
    ledger write), and only on upstream success debits via
    `adjustBalance(subAccountId, -amountMsats)` followed by
    `touchSubAccount`.  Returns the mutated store and the resolved amount. -/
def payInvoiceHandler (parse : String → Option Int) (upstreamOk : Bool) (now : String)
    (st : Store) (subAccountId : String) (invoice : String) (amount : Option Int) :
    Except PayError (Store × Int) :=
  match getSubAccountById st subAccountId with
  | none => .error .subAccountNotFound
  | some record =>
    match resolveInvoiceAmount parse invoice amount with
    | none => .error .missingAmount
    | some amountMsats =>
      if record.balanceMsats < amountMsats then .error .insufficientBalance
      else if upstreamOk then
        match adjustBalance now st subAccountId (-amountMsats) with
        | none => .error .subAccountNotFound
        | some (st1, _) => .ok (touchSubAccount now st1 subAccountId, amountMsats)
      else .error .upstreamFailure

/-- `settlePending(pending, amountMsats)`: unconditionally marks the matched
    invoice `settled` (stamping `settled_at = now`) and credits the owner with
    `adjustBalance(subAccountId, amountMsats)`.  The in-memory context-record
    mirror (`updateContextRecord`) is a cache of the store row and is not
    modelled.  There is no check that the invoice is still `pending`. -/
def settlePending (now : String) (st : Store) (pending : PendingInvoiceRecord)
    (amountMsats : Int) : Store :=
  let st1 := (updatePendingInvoiceState now st pending.id .settled (some now)).fst
  match adjustBalance now st1 pending.subAccountId amountMsats with
  | none => st1
  | some (st2, _) => st2

/-- An upstream `payment_received` notification (the fields the correlator
    reads). -/
structure PaymentNotification where
  type : String
  paymentHash : Option String
  invoice : Option String
  descriptionHash : Option String
  amount : Option Int

/-- The `payment_received` notification handler installed by
    `bootstrapUpstreamNotifications`: ignore non-`"incoming"` notifications,
    match with `findPendingInvoice` (which filters on no state), and on a match
    run `settlePending` with the upstream-reported amount falling back to the
    stored `amount_msats`.  Forwarding the notification to the sub-wallet's
    endpoint is a transport effect outside the ledger. -/
def handlePaymentNotification (now : String) (st : Store) (n : PaymentNotification) : Store :=
  if n.type = "incoming" then
    match findPendingInvoice st
        { paymentHash := n.paymentHash, invoice := n.invoice,
          descriptionHash := n.descriptionHash } with
    | none => st
    | some pending => settlePending now st pending (n.amount.getD pending.amountMsats)
  else st

/-- The expiry prune performed at the end of `WalletServiceManager.start`:
    `pruneExpiredPending(Date.now())`.  `Date.now()` is unix *milliseconds*
    (the `nowMs` parameter), handed directly to the store's cutoff, which the
    store compares against `expires_at` values stored in unix *seconds*. -/
def startExpiryPrune (now : String) (nowMs : Int) (st : Store) :
    Store × List PendingInvoiceRecord :=
  pruneExpiredPending now st nowMs

/-! ## Request router (`WalletServiceManager.start` pipeline)

The subscription pipeline is
`map (resolve servicePubkey) ∘ filter isSome ∘ groupBy key ∘ mergeMap (concatMap routeEvent)`.
The rxjs operators are external; their concatenation-per-group semantics is
modelled as an explicit dispatcher state machine: per key, a queue of waiting
events plus at most one running handler; an arriving event starts immediately
when the key is idle and is queued otherwise; a completion starts the next
queued event.  Handler invocations are emitted in the order they begin. -/

/-- A relay event: the fields `resolveServicePubkey` and the router read. -/
structure RelayEvent where
  id : Nat
  pubkey : String
  tags : List (List String)
deriving Repr, DecidableEq

/-- `resolveServicePubkey`: scans `event.tags` for the first `"p"` tag whose
    value is one of the active service pubkeys; events without one are
    dropped. -/
def resolveServicePubkey (serviceKeys : List String) (e : RelayEvent) : Option String :=
  e.tags.findSome? (fun tag =>
    match tag with
    | "p" :: candidate :: _ => if candidate ∈ serviceKeys then some candidate else none
    | _ => none)

/-- Per-sub-wallet dispatcher state: the currently running event (if any) and
    the queue of events waiting behind it. -/
structure GroupState where
  running : Option RelayEvent
  queue : List RelayEvent
deriving Repr, DecidableEq

/-- Router state: one `GroupState` per service pubkey (missing key = idle and
    empty, as `groupBy` creates groups lazily). -/
abbrev RouterState := List (String × GroupState)

/-- Look up a group, defaulting to idle/empty. -/
def getGroup (rs : RouterState) (k : String) : GroupState :=
  match rs.find? (fun p => p.fst = k) with
  | some p => p.snd
  | none => { running := none, queue := [] }

/-- Replace a group's state. -/
def setGroup (rs : RouterState) (k : String) (g : GroupState) : RouterState :=
  match rs.find? (fun p => p.fst = k) with
  | some _ => rs.map (fun p => if p.fst = k then (k, g) else p)
  | none => rs ++ [(k, g)]

/-- What the router observes: either an inbound relay event, or the completion
    of the promise returned by `routeEvent` for some key (per key at most one
    such promise is pending, by `concatMap`). -/
inductive RouterInput where
  | event (e : RelayEvent)
  | complete (k : String)

/-- One dispatcher step.  Returns the new state and the handler invocations
    begun by this step (in order). -/
def routerStep (serviceKeys : List String) (rs : RouterState) (i : RouterInput) :
    RouterState × List (String × RelayEvent) :=
  match i with
  | .event e =>
    match resolveServicePubkey serviceKeys e with
    | none => (rs, [])
    | some k =>
      let g := getGroup rs k
      match g.running with
      | none => (setGroup rs k { running := some e, queue := g.queue }, [(k, e)])
      | some _ => (setGroup rs k { g with queue := g.queue ++ [e] }, [])
  | .complete k =>
    let g := getGroup rs k
    match g.running with
    | none => (rs, [])
    | some _ =>
      match g.queue with
      | [] => (setGroup rs k { running := none, queue := [] }, [])
      | e :: rest => (setGroup rs k { running := some e, queue := rest }, [(k, e)])

/-- One dispatcher step on the accumulated (state, started-invocations)
    pair. -/
def routerStepAcc (serviceKeys : List String)
    (acc : RouterState × List (String × RelayEvent)) (i : RouterInput) :
    RouterState × List (String × RelayEvent) :=
  ((routerStep serviceKeys acc.fst i).fst,
   acc.snd ++ (routerStep serviceKeys acc.fst i).snd)

/-- Run the dispatcher over a whole input trace, collecting the handler
    invocations in the order they begin. -/
def routerRun (serviceKeys : List String) (inputs : List RouterInput) :
    RouterState × List (String × RelayEvent) :=
  inputs.foldl (routerStepAcc serviceKeys) ([], [])

/-- The events of a trace the router observes as addressed to key `k`
    (arrival order). -/
def observedFor (serviceKeys : List String) (k : String) (inputs : List RouterInput) :
    List RelayEvent :=
  inputs.filterMap (fun i =>
    match i with
    | .event e => if resolveServicePubkey serviceKeys e = some k then some e else none
    | .complete _ => none)

/-- The handler invocations begun for key `k`, in begin order. -/
def startedFor (k : String) (started : List (String × RelayEvent)) : List RelayEvent :=
  started.filterMap (fun p => if p.fst = k then some p.snd else none)

/-! ## Credential vault (`encryptBuffer` / `decryptBuffer`)

The vault calls node's `createCipheriv("aes-256-gcm", ...)`.  To settle the
envelope claims bit-exactly, AES-256-GCM is implemented here in full:
forward AES-256 (the S-box computed algebraically as the affine map of the
GF(2^8) inverse), CTR-mode keystream, and the GHASH authenticator, following
FIPS 197 and NIST SP 800-38D.  Bytes are `Nat` values below 256; 128-bit
blocks are big-endian `Nat` values. -/

/-- GF(2^8) `xtime`: multiply by x modulo x^8 + x^4 + x^3 + x + 1. -/
def xtime (a : Nat) : Nat :=
  if a < 128 then a * 2 else (a * 2) ^^^ 0x1b ^^^ 0x100

/-- GF(2^8) multiplication (Russian-peasant, 8 steps). -/
def gf8MulAux : Nat → Nat → Nat → Nat → Nat
  | 0, _, _, acc => acc
  | n + 1, a, b, acc =>
    let acc' := if b % 2 = 1 then acc ^^^ a else acc
    gf8MulAux n (xtime a) (b / 2) acc'

/-- GF(2^8) product of two bytes. -/
def gf8Mul (a b : Nat) : Nat := gf8MulAux 8 a b 0

/-- GF(2^8) inverse via a^254 (with 0 ↦ 0), by square-and-multiply on the
    exponent 254 = 2+4+8+16+32+64+128. -/
def gf8Inv (a : Nat) : Nat :=
  let a2 := gf8Mul a a
  let a4 := gf8Mul a2 a2
  let a8 := gf8Mul a4 a4
  let a16 := gf8Mul a8 a8
  let a32 := gf8Mul a16 a16
  let a64 := gf8Mul a32 a32
  let a128 := gf8Mul a64 a64
  gf8Mul a128 (gf8Mul a64 (gf8Mul a32 (gf8Mul a16 (gf8Mul a8 (gf8Mul a4 a2)))))

/-- Rotate an 8-bit value left by `n`. -/
def rotl8 (x n : Nat) : Nat :=
  ((x * 2 ^ n) % 256) ^^^ (x / 2 ^ (8 - n))

/-- The AES S-box as its defining algebra: the affine transform of the
    GF(2^8) inverse (FIPS 197 §5.1.1). -/
def sboxCalc (a : Nat) : Nat :=
  let b := gf8Inv a
  b ^^^ rotl8 b 1 ^^^ rotl8 b 2 ^^^ rotl8 b 3 ^^^ rotl8 b 4 ^^^ 0x63

/-- The AES S-box table (FIPS 197 Figure 7); proved below to agree with
    `sboxCalc` on all 256 bytes. -/
def sboxTable : List Nat :=
  [99, 124, 119, 123, 242, 107, 111, 197, 48, 1, 103, 43, 254, 215, 171, 118,
   202, 130, 201, 125, 250, 89, 71, 240, 173, 212, 162, 175, 156, 164, 114, 192,
   183, 253, 147, 38, 54, 63, 247, 204, 52, 165, 229, 241, 113, 216, 49, 21,
   4, 199, 35, 195, 24, 150, 5, 154, 7, 18, 128, 226, 235, 39, 178, 117,
   9, 131, 44, 26, 27, 110, 90, 160, 82, 59, 214, 179, 41, 227, 47, 132,
   83, 209, 0, 237, 32, 252, 177, 91, 106, 203, 190, 57, 74, 76, 88, 207,
   208, 239, 170, 251, 67, 77, 51, 133, 69, 249, 2, 127, 80, 60, 159, 168,
   81, 163, 64, 143, 146, 157, 56, 245, 188, 182, 218, 33, 16, 255, 243, 210,
   205, 12, 19, 236, 95, 151, 68, 23, 196, 167, 126, 61, 100, 93, 25, 115,
   96, 129, 79, 220, 34, 42, 144, 136, 70, 238, 184, 20, 222, 94, 11, 219,
   224, 50, 58, 10, 73, 6, 36, 92, 194, 211, 172, 98, 145, 149, 228, 121,
   231, 200, 55, 109, 141, 213, 78, 169, 108, 86, 244, 234, 101, 122, 174, 8,
   186, 120, 37, 46, 28, 166, 180, 198, 232, 221, 116, 31, 75, 189, 139, 138,
   112, 62, 181, 102, 72, 3, 246, 14, 97, 53, 87, 185, 134, 193, 29, 158,
   225, 248, 152, 17, 105, 217, 142, 148, 155, 30, 135, 233, 206, 85, 40, 223,
   140, 161, 137, 13, 191, 230, 66, 104, 65, 153, 45, 15, 176, 84, 187, 22]

/-- S-box lookup. -/
def sbox (a : Nat) : Nat := sboxTable.getD a 0

/-- Round constant `rcon i` = x^(i-1) in GF(2^8). -/
def rconVal : Nat → Nat
  | 0 => 1
  | n + 1 => xtime (rconVal n)

/-- Big-endian 32-bit word from four bytes. -/
def wordOfBytes (bs : List Nat) : Nat :=
  bs.foldl (fun acc b => acc * 256 + b) 0

/-- The four bytes of a 32-bit word (big-endian). -/
def bytesOfWord (w : Nat) : List Nat :=
  [w / 2 ^ 24 % 256, w / 2 ^ 16 % 256, w / 2 ^ 8 % 256, w % 256]

/-- `SubWord`: S-box applied to each byte of a word. -/
def subWord (w : Nat) : Nat :=
  wordOfBytes ((bytesOfWord w).map sbox)

/-- `RotWord`: rotate a word left by one byte. -/
def rotWord (w : Nat) : Nat :=
  (w % 2 ^ 24) * 256 + w / 2 ^ 24

/-- AES-256 key expansion (FIPS 197 §5.2, Nk = 8): the 60 round-key words. -/
def keyWords (key : List Nat) : List Nat :=
  let init := (List.range 8).map (fun i => wordOfBytes ((key.drop (4 * i)).take 4))
  (List.range 52).foldl
    (fun w j =>
      let i := j + 8
      let prev := w.getD (i - 1) 0
      let temp :=
        if i % 8 = 0 then subWord (rotWord prev) ^^^ rconVal (i / 8 - 1) * 2 ^ 24
        else if i % 8 = 4 then subWord prev
        else prev
      w ++ [w.getD (i - 8) 0 ^^^ temp])
    init

/-- Round key `r` as 16 bytes (words 4r..4r+3). -/
def roundKey (w : List Nat) (r : Nat) : List Nat :=
  ((w.drop (4 * r)).take 4).flatMap bytesOfWord

/-- `AddRoundKey`. -/
def addRoundKey (state rk : List Nat) : List Nat :=
  List.zipWith Nat.xor state rk

/-- `SubBytes`. -/
def subBytes (state : List Nat) : List Nat :=
  state.map sbox

/-- `ShiftRows` on the flat column-major state (byte `r + 4c` is row `r`,
    column `c`, as in FIPS 197 §3.4). -/
def shiftRows (state : List Nat) : List Nat :=
  [0, 5, 10, 15, 4, 9, 14, 3, 8, 13, 2, 7, 12, 1, 6, 11].map (fun i => state.getD i 0)

/-- `MixColumns` on one column. -/
def mixColumn (col : List Nat) : List Nat :=
  match col with
  | [a0, a1, a2, a3] =>
    [xtime a0 ^^^ (xtime a1 ^^^ a1) ^^^ a2 ^^^ a3,
     a0 ^^^ xtime a1 ^^^ (xtime a2 ^^^ a2) ^^^ a3,
     a0 ^^^ a1 ^^^ xtime a2 ^^^ (xtime a3 ^^^ a3),
     (xtime a0 ^^^ a0) ^^^ a1 ^^^ a2 ^^^ xtime a3]
  | other => other

/-- `MixColumns` over the four columns. -/
def mixColumns (state : List Nat) : List Nat :=
  (List.range 4).flatMap (fun c => mixColumn ((state.drop (4 * c)).take 4))

/-- AES-256 block encryption (14 rounds) over 16 input bytes. -/
def aesEncryptBlock (key block : List Nat) : List Nat :=
  let w := keyWords key
  let state0 := addRoundKey block (roundKey w 0)
  let middle := (List.range 13).foldl
    (fun s r => addRoundKey (mixColumns (shiftRows (subBytes s))) (roundKey w (r + 1)))
    state0
  addRoundKey (shiftRows (subBytes middle)) (roundKey w 14)

/-- Big-endian `Nat` of a byte list. -/
def bytesToNat (bs : List Nat) : Nat :=
  bs.foldl (fun acc b => acc * 256 + b) 0

/-- The 16 big-endian bytes of a 128-bit value. -/
def natToBytes16 (n : Nat) : List Nat :=
  (List.range 16).map (fun i => n / 2 ^ (8 * (15 - i)) % 256)

/-- AES-256 on a 128-bit block value. -/
def aesBlockNat (key : List Nat) (x : Nat) : Nat :=
  bytesToNat (aesEncryptBlock key (natToBytes16 x))

/-- GF(2^128) multiplication of SP 800-38D §6.3 (blocks as 128-bit values,
    bit 0 of the standard = the most significant bit here):
    consume the bits of `x` from the most significant down, accumulating the
    shifted-and-reduced copies of `y`. -/
def gfMulAux : Nat → Nat → Nat → Nat → Nat
  | 0, _, _, z => z
  | n + 1, x, v, z =>
    let z' := if x.testBit 127 then z ^^^ v else z
    let v' := if v % 2 = 1 then (v / 2) ^^^ (0xe1 * 2 ^ 120) else v / 2
    gfMulAux n (x * 2 % 2 ^ 128) v' z'

/-- GF(2^128) product. -/
def gfMul (x y : Nat) : Nat := gfMulAux 128 x y 0

/-- GHASH: `Y_i = (Y_{i-1} ⊕ X_i) · H`, starting from zero. -/
def ghash (h : Nat) (blocks : List Nat) : Nat :=
  blocks.foldl (fun y b => gfMul (y ^^^ b) h) 0

/-- Split a byte string into 128-bit blocks, zero-padding the last. -/
def chunkBlocks (bs : List Nat) : List Nat :=
  (List.range ((bs.length + 15) / 16)).map (fun i =>
    let chunk := (bs.drop (16 * i)).take 16
    bytesToNat chunk * 2 ^ (8 * (16 - chunk.length)))

/-- `inc32`: increment the low 32 bits of a counter block. -/
def inc32 (x : Nat) : Nat :=
  x / 2 ^ 32 * 2 ^ 32 + (x + 1) % 2 ^ 32

/-- Iterated `inc32`. -/
def inc32Iter : Nat → Nat → Nat
  | 0, x => x
  | n + 1, x => inc32 (inc32Iter n x)

/-- The pre-counter block J0 for a 12-byte IV: `IV ∥ 0^31 ∥ 1`. -/
def gcmJ0 (iv : List Nat) : Nat :=
  bytesToNat iv * 2 ^ 32 + 1

/-- The CTR keystream: encryptions of `inc32^(i+1)(J0)`, truncated to `n`
    bytes. -/
def ctrKeystream (key iv : List Nat) (n : Nat) : List Nat :=
  (((List.range ((n + 15) / 16)).flatMap
    (fun i => natToBytes16 (aesBlockNat key (inc32Iter (i + 1) (gcmJ0 iv))))).take n)

/-- The 64-bit-lengths block of GHASH (no AAD; lengths in bits). -/
def gcmLenBlock (ctLen : Nat) : Nat :=
  ctLen * 8

/-- The GCM authentication tag over a ciphertext (no AAD):
    `GHASH_H(C ∥ len) ⊕ E_K(J0)`, as 16 bytes. -/
def gcmTag (key iv ct : List Nat) : List Nat :=
  let h := aesBlockNat key 0
  natToBytes16 (ghash h (chunkBlocks ct ++ [gcmLenBlock ct.length]) ^^^
    aesBlockNat key (gcmJ0 iv))

/-- GCM encryption: ciphertext = plaintext ⊕ keystream. -/
def gcmEncrypt (key iv plaintext : List Nat) : List Nat :=
  List.zipWith Nat.xor plaintext (ctrKeystream key iv plaintext.length)

/-- `encryptBuffer(buffer)`: the versioned envelope
    `[version = 0x01] [iv_length = 0x0C] [iv] [auth_tag] [ciphertext]`.
    `randomBytes(IV_LENGTH)` supplies the IV; it enters the model as the `iv`
    parameter.  The master key is the 32-byte `key`. -/
def encryptBuffer (key iv buffer : List Nat) : List Nat :=
  let ct := gcmEncrypt key iv buffer
  1 :: 12 :: (iv ++ gcmTag key iv ct ++ ct)

/-- The failures of `decryptBuffer`: payload shorter than header+iv+tag,
    unsupported version byte, unexpected IV length, and the GCM
    authentication failure thrown by `decipher.final()`. -/
inductive DecryptError where
  | tooShort
  | badVersion
  | badIvLength
  | authFailure
deriving Repr, DecidableEq

/-- `decryptBuffer(payload)`: checks the length, the version byte and the IV
    length byte, splits the envelope, and decrypts; `decipher.setAuthTag` +
    `final()` succeed exactly when the stored tag equals the GCM tag of the
    ciphertext under the key and IV. -/
def decryptBuffer (key payload : List Nat) : Except DecryptError (List Nat) :=
  if payload.length < 2 + 12 + 16 then .error .tooShort
  else if payload.getD 0 0 ≠ 1 then .error .badVersion
  else if payload.getD 1 0 ≠ 12 then .error .badIvLength
  else
    let iv := (payload.drop 2).take 12
    let tag := (payload.drop 14).take 16
    let ct := payload.drop 30
    if tag = gcmTag key iv ct then
      .ok (List.zipWith Nat.xor ct (ctrKeystream key iv ct.length))
    else .error .authFailure

/-! ## Concrete instances used by counterexamples and witnesses -/

/-- A sub-account row with the given id and balances (remaining columns are
    fixed harmless values). -/
def mkSubAccount (id : String) (bal pend : Int) : SubAccountRecord :=
  { id := id, label := id, description := none, relays := [], servicePubkey := id ++ "-spk",
    serviceSecret := [], clientPubkey := id ++ "-cpk", clientSecret := [],
    balanceMsats := bal, pendingMsats := pend, metadata := none,
    createdAt := "2024-01-01T00:00:00.000Z", updatedAt := "2024-01-01T00:00:00.000Z",
    lastUsedAt := none, usageCount := 0 }

/-- A pending-invoice row with the given key fields. -/
def mkInvoice (id owner : String) (amt : Int) (st : PendingInvoiceState)
    (ph inv dh : Option String) (exp : Option Int) (upd : String) : PendingInvoiceRecord :=
  { id := id, subAccountId := owner, invoice := inv, paymentHash := ph,
    descriptionHash := dh, amountMsats := amt, state := st, expiresAt := exp,
    createdAt := "2024-01-01T00:00:00.000Z", updatedAt := upd, settledAt := none,
    raw := none }

/-- The per-invoice contribution to the canonical pending sum. -/
def pendingContrib (x : String) (i : PendingInvoiceRecord) : Int :=
  if i.subAccountId = x ∧ i.state = .pending then i.amountMsats else 0

/-- One sub-account awaiting a 100000-msat settlement on invoice `inv1`
    (aggregates consistent). -/
def exSettleStore : Store :=
  { subAccounts := [mkSubAccount "acct" 0 100000],
    invoices := [mkInvoice "inv1" "acct" 100000 .pending (some "hash1") none none none
      "2024-01-01T00:00:00.000Z"] }

/-- The upstream settlement notification for `exSettleStore`'s invoice. -/
def exSettleNotification : PaymentNotification :=
  { type := "incoming", paymentHash := some "hash1", invoice := none,
    descriptionHash := none, amount := some 100000 }

/-- A sub-account holding 5 msats. -/
def exNegStore : Store :=
  { subAccounts := [mkSubAccount "acct" 5 0], invoices := [] }

/-- A consistent store: one pending invoice of 100 msats, aggregate 100. -/
def exPendingStore : Store :=
  { subAccounts := [mkSubAccount "acct" 0 100],
    invoices := [mkInvoice "inv1" "acct" 100 .pending none none none none
      "2024-01-01T00:00:00.000Z"] }

/-- A store whose only invoice is already `settled` but carries
    `expires_at = 10`. -/
def exPruneStore : Store :=
  { subAccounts := [mkSubAccount "acct" 0 0],
    invoices := [mkInvoice "done" "acct" 500 .settled none none none (some 10)
      "2024-01-01T00:00:00.000Z"] }

/-- A store with a settled invoice whose expiry is the unix-seconds value
    1700000000 (2023-11-14). -/
def exStartStore : Store :=
  { subAccounts := [mkSubAccount "acct" 0 0],
    invoices := [mkInvoice "done" "acct" 500 .settled none none none (some 1700000000)
      "2024-01-01T00:00:00.000Z"] }

/-- A store whose only invoice is in the terminal state `settled`. -/
def exTransStore : Store :=
  { subAccounts := [mkSubAccount "acct" 0 0],
    invoices := [mkInvoice "inv1" "acct" 100 .settled none none none none
      "2024-01-01T00:00:00.000Z"] }

/-- Invoice `A` matches on `payment_hash`; the more recently updated invoice
    `B` matches only on the BOLT11 string. -/
def exFindStore : Store :=
  { subAccounts := [],
    invoices :=
      [mkInvoice "A" "acct" 1 .pending (some "hash1") none none none
        "2024-01-01T00:00:00.000Z",
       mkInvoice "B" "acct" 1 .pending none (some "lnbc1") none none
        "2024-01-02T00:00:00.000Z"] }

/-- Lookup criteria naming both invoice `A`'s payment hash and invoice `B`'s
    BOLT11 string. -/
def exFindCriteria : PendingLookupCriteria :=
  { paymentHash := some "hash1", invoice := some "lnbc1", descriptionHash := none }

/-- A funded sub-account for the `pay_invoice` witness. -/
def exPayStore : Store :=
  { subAccounts := [mkSubAccount "acct" 1000000 0], invoices := [] }

/-- Concrete vault inputs: a 32-byte key, a 12-byte IV, a 32-byte plaintext. -/
def gcmExKey : List Nat := List.range 32

/-- The 12-byte IV of the vault example. -/
def gcmExIv : List Nat := List.range 12

/-- The 32-byte plaintext of the vault example. -/
def gcmExPlain : List Nat := List.replicate 32 65

/-- The genuine envelope of the vault example. -/
def gcmExEnv : List Nat := encryptBuffer gcmExKey gcmExIv gcmExPlain

/-- The genuine ciphertext (bytes 30.. of the envelope). -/
def gcmExCt : List Nat := gcmExEnv.drop 30

/-- The genuine tag (bytes 14..29 of the envelope). -/
def gcmExTag : List Nat := (gcmExEnv.drop 14).take 16

/-- The GHASH key H = AES_K(0^128) of the example key. -/
def gcmExH : Nat := aesBlockNat gcmExKey 0

/-- A tampered envelope: flip the last bit of the first ciphertext block and
    add `1 · H` (a GF(2^128) product) to the second, leaving the GHASH value —
    and hence the tag check — unchanged. -/
def gcmExTampered : List Nat :=
  1 :: 12 :: (gcmExIv ++ gcmExTag ++
    (natToBytes16 (bytesToNat (gcmExCt.take 16) ^^^ 1) ++
     natToBytes16 (bytesToNat (gcmExCt.drop 16) ^^^ gfMul 1 gcmExH)))

/-! ## Basic lemmas about the store operations -/

theorem find?_updateSubAccountRows (l : List SubAccountRecord) (id : String)
    (g : SubAccountRecord → SubAccountRecord) (hg : ∀ a, (g a).id = a.id) :
    (updateSubAccountRows l id g).find? (fun a => a.id = id)
      = (l.find? (fun a => a.id = id)).map g := by
  induction l with
  | nil => rfl
  | cons a l ih =>
    by_cases h : a.id = id
    · simp [updateSubAccountRows, List.find?, h, hg]
    · simp only [updateSubAccountRows, List.map_cons, if_neg h, List.find?]
      simp only [h, decide_False]
      simpa [updateSubAccountRows] using ih

theorem find?_updateInvoiceRows (l : List PendingInvoiceRecord) (id : String)
    (g : PendingInvoiceRecord → PendingInvoiceRecord) (hg : ∀ i, (g i).id = i.id) :
    (updateInvoiceRows l id g).find? (fun i => i.id = id)
      = (l.find? (fun i => i.id = id)).map g := by
  induction l with
  | nil => rfl
  | cons a l ih =>
    by_cases h : a.id = id
    · simp [updateInvoiceRows, List.find?, h, hg]
    · simp only [updateInvoiceRows, List.map_cons, if_neg h, List.find?]
      simp only [h, decide_False]
      simpa [updateInvoiceRows] using ih

theorem map_updateSubAccountRows (l : List SubAccountRecord) (id : String)
    (g : SubAccountRecord → SubAccountRecord) {α : Type} (f : SubAccountRecord → α)
    (hfg : ∀ a, a.id = id → f (g a) = f a) :
    (updateSubAccountRows l id g).map f = l.map f := by
  induction l with
  | nil => rfl
  | cons a l ih =>
    by_cases h : a.id = id
    · simp only [updateSubAccountRows, List.map_cons, if_pos h, hfg a h]
      simpa [updateSubAccountRows] using ih
    · simp only [updateSubAccountRows, List.map_cons, if_neg h]
      simpa [updateSubAccountRows] using ih

theorem pendingSumList_eq_sum_contrib (l : List PendingInvoiceRecord) (x : String) :
    pendingSumList l x = (l.map (pendingContrib x)).sum := by
  induction l with
  | nil => rfl
  | cons i l ih =>
    by_cases h : i.subAccountId = x ∧ i.state = .pending
    · simp [pendingSumList, pendingContrib, List.filter, h, List.sum_cons] at ih ⊢
      omega
    · simp [pendingSumList, pendingContrib, List.filter, h, List.sum_cons] at ih ⊢
      exact ih

theorem pendingSumList_append (l l' : List PendingInvoiceRecord) (x : String) :
    pendingSumList (l ++ l') x = pendingSumList l x + pendingSumList l' x := by
  simp [pendingSumList_eq_sum_contrib]

theorem pendingSumList_map_congr (l : List PendingInvoiceRecord)
    (f : PendingInvoiceRecord → PendingInvoiceRecord) (x : String)
    (h : ∀ i ∈ l, pendingContrib x (f i) = pendingContrib x i) :
    pendingSumList (l.map f) x = pendingSumList l x := by
  simp only [pendingSumList_eq_sum_contrib, List.map_map]
  exact congrArg List.sum (List.map_congr_left h)

theorem pendingSumList_filter_of_zero (l : List PendingInvoiceRecord)
    (q : PendingInvoiceRecord → Bool) (x : String)
    (h : ∀ i ∈ l, q i = false → pendingContrib x i = 0) :
    pendingSumList (l.filter q) x = pendingSumList l x := by
  induction l with
  | nil => rfl
  | cons i l ih =>
    have hl : pendingSumList (l.filter q) x = pendingSumList l x :=
      ih (fun j hj hq => h j (List.mem_cons_of_mem i hj) hq)
    by_cases hq : q i
    · simp only [List.filter_cons, hq, if_pos]
      have : ∀ r, pendingSumList (i :: r) x = pendingContrib x i + pendingSumList r x := by
        intro r
        simp [pendingSumList_eq_sum_contrib]
      rw [this, this, hl]
    · have hz : pendingContrib x i = 0 := h i (List.mem_cons_self i l) (by simpa using hq)
      simp only [List.filter_cons, hq, if_neg]
      have : pendingSumList (i :: l) x = pendingContrib x i + pendingSumList l x := by
        simp [pendingSumList_eq_sum_contrib]
      simp only [Bool.false_eq_true, if_false]
      rw [this, hz, hl]
      omega

/-- Rows with distinct mapped keys: two members with the same key are equal. -/
theorem nodup_key_unique {α β : Type} [DecidableEq β] (l : List α) (f : α → β)
    (h : (l.map f).Nodup) {a b : α} (ha : a ∈ l) (hb : b ∈ l) (heq : f a = f b) :
    a = b := by
  exact List.inj_on_of_nodup_map h ha hb heq

theorem refreshPendingAggregate_invoices (now : String) (st : Store) (sid : String) :
    (refreshPendingAggregate now st sid).invoices = st.invoices := rfl

theorem pendingSum_refresh (now : String) (st : Store) (sid x : String) :
    pendingSum (refreshPendingAggregate now st sid) x = pendingSum st x := rfl

/-- After a refresh of `sid`, the invariant holds provided every *other*
    account already satisfied it. -/
theorem aggregateOk_refresh (now : String) (st : Store) (sid : String)
    (h : ∀ a ∈ st.subAccounts, a.id ≠ sid → a.pendingMsats = pendingSum st a.id) :
    aggregateOk (refreshPendingAggregate now st sid) := by
  intro a' ha'
  simp only [refreshPendingAggregate, updateSubAccountRows, List.mem_map] at ha'
  obtain ⟨a, ha, rfl⟩ := ha'
  by_cases hid : a.id = sid
  · simp [if_pos hid, pendingSum_refresh, hid]
  · simp only [if_neg hid, pendingSum_refresh]
    exact h a ha hid

theorem pendingSumList_singleton (i : PendingInvoiceRecord) (x : String) :
    pendingSumList [i] x = pendingContrib x i := by
  simp [pendingSumList_eq_sum_contrib]

theorem aggregateOk_create (now : String) (st : Store) (p : CreateSubAccountRow)
    (st' : Store) (r : SubAccountRecord)
    (hwf : storeWf st) (hok : aggregateOk st)
    (h : createSubAccount now st p = some (st', r)) : aggregateOk st' := by
  unfold createSubAccount at h
  split at h
  · exact absurd h (by simp)
  · rename_i hguard
    simp only [Option.some.injEq, Prod.mk.injEq] at h
    obtain ⟨hst, -⟩ := h
    subst hst
    intro a ha
    simp only [List.mem_append, List.mem_singleton] at ha
    rcases ha with ha | rfl
    · exact hok a ha
    · show (0 : Int) = pendingSum _ p.id
      have hfresh : ∀ i ∈ st.invoices, pendingContrib p.id i = 0 := by
        intro i hi
        obtain ⟨-, -, hfk⟩ := hwf
        obtain ⟨a, ha, haid⟩ := hfk i hi
        have hne : a.id ≠ p.id := by
          intro hcontra
          simp only [List.any_eq_true, not_exists, not_and] at hguard
          have hg : ¬ (a.id = p.id ∨ a.servicePubkey = p.servicePubkey ∨
              a.clientPubkey = p.clientPubkey) := by simpa using hguard a ha
          exact hg (Or.inl hcontra)
        have hown : i.subAccountId ≠ p.id := fun hc => hne (haid.trans hc)
        simp [pendingContrib, hown]
      have hz : pendingSumList st.invoices p.id = 0 := by
        rw [pendingSumList_eq_sum_contrib, List.map_congr_left hfresh]
        simp
      exact hz.symm

/-- Appending a single invoice and refreshing its owner restores the
    invariant. -/
theorem aggregateOk_append_refresh (now : String) (st : Store)
    (inv : PendingInvoiceRecord) (hok : aggregateOk st) :
    aggregateOk (refreshPendingAggregate now
      { st with invoices := st.invoices ++ [inv] } inv.subAccountId) := by
  apply aggregateOk_refresh
  intro a ha hne
  have hbase := hok a ha
  show a.pendingMsats = pendingSumList (st.invoices ++ [inv]) a.id
  rw [pendingSumList_append, pendingSumList_singleton]
  have hz : pendingContrib a.id inv = 0 := by
    have : inv.subAccountId ≠ a.id := fun hc => hne hc.symm
    simp [pendingContrib, this]
  rw [hz, hbase]
  simp [pendingSum]

theorem aggregateOk_register (now : String) (st : Store) (p : RegisterPendingParams)
    (st' : Store) (inv : PendingInvoiceRecord)
    (hok : aggregateOk st)
    (h : registerPendingInvoice now st p = some (st', inv)) : aggregateOk st' := by
  unfold registerPendingInvoice at h
  split at h
  · exact absurd h (by simp)
  · split at h
    · exact absurd h (by simp)
    · simp only [Option.some.injEq, Prod.mk.injEq] at h
      obtain ⟨hst, -⟩ := h
      subst hst
      exact aggregateOk_append_refresh now st _ hok

theorem aggregateOk_updateState (now : String) (st : Store) (iid : String)
    (s : PendingInvoiceState) (sAt : Option String)
    (hwf : storeWf st) (hok : aggregateOk st) :
    aggregateOk (updatePendingInvoiceState now st iid s sAt).fst := by
  unfold updatePendingInvoiceState
  rcases hfind : getPendingInvoiceById st iid with - | pending
  · exact hok
  · have hmem : pending ∈ st.invoices := List.mem_of_find?_eq_some hfind
    have hpid : pending.id = iid := by
      have := List.find?_some hfind
      simpa using this
    apply aggregateOk_refresh
    intro a ha hne
    have hbase := hok a ha
    show a.pendingMsats = pendingSumList (updateInvoiceRows st.invoices iid _) a.id
    have hcongr : pendingSumList (updateInvoiceRows st.invoices iid
        (fun i => { i with state := s, settledAt := sAt, updatedAt := now })) a.id
        = pendingSumList st.invoices a.id := by
      apply pendingSumList_map_congr
      intro i hi
      by_cases hii : i.id = iid
      · have : i = pending :=
          nodup_key_unique st.invoices (fun j => j.id) hwf.2.1 hi hmem (hii.trans hpid.symm)
        subst this
        have howner : i.subAccountId ≠ a.id := fun hc => hne hc.symm
        simp [if_pos hii, pendingContrib, howner]
      · simp [hii]
    rw [hcongr]
    exact hbase

theorem aggregateOk_delete (now : String) (st : Store) (iid : String)
    (hwf : storeWf st) (hok : aggregateOk st) :
    aggregateOk (deletePendingInvoice now st iid) := by
  unfold deletePendingInvoice
  rcases hfind : getPendingInvoiceById st iid with - | pending
  · exact hok
  · have hmem : pending ∈ st.invoices := List.mem_of_find?_eq_some hfind
    have hpid : pending.id = iid := by
      have := List.find?_some hfind
      simpa using this
    apply aggregateOk_refresh
    intro a ha hne
    have hbase := hok a ha
    show a.pendingMsats = pendingSumList (st.invoices.filter _) a.id
    have : pendingSumList (st.invoices.filter (fun i => ¬ i.id = iid)) a.id
        = pendingSumList st.invoices a.id := by
      apply pendingSumList_filter_of_zero
      intro i hi hq
      have hii : i.id = iid := by simpa using hq
      have : i = pending :=
        nodup_key_unique st.invoices (fun j => j.id) hwf.2.1 hi hmem (hii.trans hpid.symm)
      subst this
      have howner : i.subAccountId ≠ a.id := fun hc => hne hc.symm
      simp [pendingContrib, howner]
    rw [this]
    exact hbase

theorem aggregateOk_updateBalances_balanceOnly (now : String) (st : Store)
    (sid : String) (b : Option Int) (st' : Store) (r : SubAccountRecord)
    (hwf : storeWf st) (hok : aggregateOk st)
    (h : updateBalances now st
      { subAccountId := sid, balanceMsats := b, pendingMsats := none } = some (st', r)) :
    aggregateOk st' := by
  unfold updateBalances at h
  rcases hfind : getSubAccountById st sid with - | record
  · rw [hfind] at h
    exact absurd h (by simp)
  · rw [hfind] at h
    simp only at h
    split at h
    · exact absurd h (by simp)
    · rename_i r2 heq
      simp only [Option.some.injEq, Prod.mk.injEq] at h
      obtain ⟨hst, -⟩ := h
      subst hst
      have hmem : record ∈ st.subAccounts := List.mem_of_find?_eq_some hfind
      have hrid : record.id = sid := by
        have := List.find?_some hfind
        simpa using this
      intro a' ha'
      simp only [updateSubAccountRows, List.mem_map] at ha'
      obtain ⟨a, ha, rfl⟩ := ha'
      by_cases hid : a.id = sid
      · have haeq : a = record :=
          nodup_key_unique st.subAccounts (fun x => x.id) hwf.1 ha hmem (hid.trans hrid.symm)
        have hid' : record.id = sid := haeq ▸ hid
        simp only [haeq, if_pos hid']
        exact hok record hmem
      · simp only [if_neg hid]
        exact hok a ha

/-- The invoice table after the prune loop: the fold deletes exactly the rows
    whose id occurs among the selected rows (aggregate refreshes leave the
    invoice table untouched). -/
theorem prune_fold_invoices (now : String) (rows : List PendingInvoiceRecord) :
    ∀ st : Store,
      (rows.foldl (fun acc row =>
        refreshPendingAggregate now (deleteInvoiceRows acc row.id) row.subAccountId) st).invoices
      = st.invoices.filter (fun i => rows.all (fun r => ¬ i.id = r.id)) := by
  induction rows with
  | nil => intro st; simp
  | cons r rows ih =>
    intro st
    rw [List.foldl_cons, ih]
    show (st.invoices.filter fun i => ¬ i.id = r.id).filter _ = _
    rw [List.filter_filter]
    apply List.filter_congr
    intro i _
    simp [List.all_cons, Bool.and_comm]

/-- The prune loop never changes any account's id or balance. -/
theorem prune_fold_balances (now : String) (rows : List PendingInvoiceRecord) :
    ∀ st : Store,
      (rows.foldl (fun acc row =>
        refreshPendingAggregate now (deleteInvoiceRows acc row.id) row.subAccountId)
          st).subAccounts.map (fun a => (a.id, a.balanceMsats))
      = st.subAccounts.map (fun a => (a.id, a.balanceMsats)) := by
  induction rows with
  | nil => intro st; rfl
  | cons r rows ih =>
    intro st
    rw [List.foldl_cons, ih]
    exact map_updateSubAccountRows _ _ _ _ (fun a _ => rfl)

/-- The prune loop preserves the aggregate invariant, provided every invoice
    sharing an id with a selected row has that row's owner. -/
theorem prune_fold_aggOk (now : String) (rows : List PendingInvoiceRecord) :
    ∀ st : Store,
      (∀ row ∈ rows, ∀ i ∈ st.invoices, i.id = row.id → i.subAccountId = row.subAccountId) →
      aggregateOk st →
      aggregateOk (rows.foldl (fun acc row =>
        refreshPendingAggregate now (deleteInvoiceRows acc row.id) row.subAccountId) st) := by
  induction rows with
  | nil => intro st _ hok; exact hok
  | cons r rows ih =>
    intro st hown hok
    rw [List.foldl_cons]
    apply ih
    · intro row hrow i hi hid
      have hi' : i ∈ st.invoices := by
        have : i ∈ st.invoices.filter (fun j => ¬ j.id = r.id) := hi
        exact List.mem_of_mem_filter this
      exact hown row (List.mem_cons_of_mem r hrow) i hi' hid
    · apply aggregateOk_refresh
      intro a ha hne
      have ha' : a ∈ st.subAccounts := ha
      have hbase := hok a ha'
      show a.pendingMsats = pendingSumList (st.invoices.filter _) a.id
      have : pendingSumList (st.invoices.filter (fun i => ¬ i.id = r.id)) a.id
          = pendingSumList st.invoices a.id := by
        apply pendingSumList_filter_of_zero
        intro i hi hq
        have hii : i.id = r.id := by simpa using hq
        have howner : i.subAccountId = r.subAccountId :=
          hown r (List.mem_cons_self r rows) i hi hii
        have : i.subAccountId ≠ a.id := fun hc => hne ((hc ▸ howner).symm ▸ rfl)
        simp [pendingContrib, this]
      rw [this]
      exact hbase

/-! ## Order lemmas for the `updated_at` comparison -/

theorem strLtAux_irrefl : ∀ a : List Char, strLtAux a a = false := by
  intro a
  induction a with
  | nil => rfl
  | cons x xs ih => simp [strLtAux, ih]

theorem strLtAux_asymm : ∀ a b : List Char, strLtAux a b = true → strLtAux b a = false := by
  intro a
  induction a with
  | nil =>
    intro b hab
    cases b with
    | nil => exact absurd hab (by simp [strLtAux])
    | cons y ys => rfl
  | cons x xs ih =>
    intro b hab
    cases b with
    | nil => exact absurd hab (by simp [strLtAux])
    | cons y ys =>
      simp only [strLtAux] at hab ⊢
      by_cases h1 : x.toNat < y.toNat
      · rw [if_neg (by omega : ¬ y.toNat < x.toNat), if_pos h1]
      · by_cases h2 : y.toNat < x.toNat
        · rw [if_neg h1, if_pos h2] at hab
          exact absurd hab (by simp)
        · rw [if_neg h1, if_neg h2] at hab
          rw [if_neg h2, if_neg h1]
          exact ih ys hab

theorem strLtAux_ge_trans : ∀ a b c : List Char,
    strLtAux a b = false → strLtAux b c = false → strLtAux a c = false := by
  intro a
  induction a with
  | nil =>
    intro b c hab hbc
    cases b with
    | nil =>
      cases c with
      | nil => rfl
      | cons z zs => exact absurd hbc (by simp [strLtAux])
    | cons y ys => exact absurd hab (by simp [strLtAux])
  | cons x xs ih =>
    intro b c hab hbc
    cases c with
    | nil => rfl
    | cons z zs =>
      cases b with
      | nil => exact absurd hbc (by simp [strLtAux])
      | cons y ys =>
        simp only [strLtAux] at hab hbc ⊢
        by_cases h1 : x.toNat < y.toNat
        · rw [if_pos h1] at hab
          exact absurd hab (by simp)
        · by_cases h2 : y.toNat < z.toNat
          · rw [if_pos h2] at hbc
            exact absurd hbc (by simp)
          · rw [if_neg (by omega : ¬ x.toNat < z.toNat)]
            by_cases h4 : z.toNat < x.toNat
            · rw [if_pos h4]
            · rw [if_neg h4]
              rw [if_neg h1, if_neg (by omega : ¬ y.toNat < x.toNat)] at hab
              rw [if_neg h2, if_neg (by omega : ¬ z.toNat < y.toNat)] at hbc
              exact ih ys zs hab hbc

theorem strLt_irrefl (a : String) : strLt a a = false := strLtAux_irrefl a.toList

theorem strLt_asymm {a b : String} (h : strLt a b = true) : strLt b a = false :=
  strLtAux_asymm a.toList b.toList h

theorem strLt_ge_trans {a b c : String} (hab : strLt a b = false) (hbc : strLt b c = false) :
    strLt a c = false :=
  strLtAux_ge_trans a.toList b.toList c.toList hab hbc

/-- Specification of the `ORDER BY updated_at DESC LIMIT 1` fold: a produced
    row comes from the accumulator or the list and is maximal for
    `updated_at`. -/
theorem foldl_pickLatest_spec :
    ∀ (l : List PendingInvoiceRecord) (acc : Option PendingInvoiceRecord)
      (r : PendingInvoiceRecord),
      l.foldl pickLatest acc = some r →
      (acc = some r ∨ r ∈ l) ∧
      (∀ i ∈ l, strLt r.updatedAt i.updatedAt = false) ∧
      (∀ b, acc = some b → strLt r.updatedAt b.updatedAt = false) := by
  intro l
  induction l with
  | nil =>
    intro acc r h
    simp only [List.foldl_nil] at h
    refine ⟨Or.inl h, by simp, ?_⟩
    intro b hb
    rw [h] at hb
    cases hb
    exact strLt_irrefl _
  | cons i l ih =>
    intro acc r h
    rw [List.foldl_cons] at h
    obtain ⟨hsrc, hmax, hacc⟩ := ih (pickLatest acc i) r h
    have hri : strLt r.updatedAt i.updatedAt = false := by
      rcases hacc' : pickLatest acc i with - | b'
      · cases acc with
        | none => exact absurd hacc' (by simp [pickLatest])
        | some b =>
          exfalso
          simp only [pickLatest] at hacc'
          split at hacc' <;> simp at hacc'
      · have hrb' := hacc b' hacc'
        cases acc with
        | none =>
          simp only [pickLatest, Option.some.injEq] at hacc'
          exact hacc' ▸ hrb'
        | some b =>
          simp only [pickLatest] at hacc'
          split at hacc'
          · rename_i hlt
            cases hacc'
            exact hrb'
          · rename_i hlt
            cases hacc'
            exact strLt_ge_trans hrb' (by simpa using hlt)
    refine ⟨?_, ?_, ?_⟩
    · rcases hsrc with hsrc | hsrc
      · cases acc with
        | none =>
          simp only [pickLatest, Option.some.injEq] at hsrc
          exact Or.inr (hsrc ▸ List.mem_cons_self i l)
        | some b =>
          simp only [pickLatest] at hsrc
          split at hsrc
          · cases hsrc
            exact Or.inr (List.mem_cons_self _ l)
          · exact Or.inl hsrc
      · exact Or.inr (List.mem_cons_of_mem i hsrc)
    · intro j hj
      rcases List.mem_cons.mp hj with rfl | hj
      · exact hri
      · exact hmax j hj
    · intro b hb
      subst hb
      cases hval : pickLatest (some b) i with
      | none => simp [pickLatest] at hval; split at hval <;> simp at hval
      | some b' =>
        have hrb' := hacc b' hval
        simp only [pickLatest] at hval
        split at hval
        · rename_i hlt
          cases hval
          exact strLt_ge_trans hrb' (strLt_asymm hlt)
        · cases hval
          exact hrb'

/-- The `pickLatest` fold yields nothing only from an empty list and an empty
    accumulator. -/
theorem foldl_pickLatest_eq_none :
    ∀ (l : List PendingInvoiceRecord) (acc : Option PendingInvoiceRecord),
      l.foldl pickLatest acc = none → acc = none ∧ l = [] := by
  intro l
  induction l with
  | nil => intro acc h; exact ⟨h, rfl⟩
  | cons i l ih =>
    intro acc h
    rw [List.foldl_cons] at h
    obtain ⟨hmid, -⟩ := ih (pickLatest acc i) h
    exfalso
    cases acc with
    | none => simp [pickLatest] at hmid
    | some b =>
      simp only [pickLatest] at hmid
      split at hmid <;> simp at hmid

/-! ## Router lemmas -/

theorem find?_append_of_none {α : Type} (l1 l2 : List α) (p : α → Bool)
    (h : l1.find? p = none) : (l1 ++ l2).find? p = l2.find? p := by
  induction l1 with
  | nil => rfl
  | cons a l1 ih =>
    simp only [List.find?] at h ⊢
    rcases hp : p a with - | -
    · rw [hp] at h
      simp only [List.cons_append, List.find?, hp]
      exact ih h
    · rw [hp] at h
      exact absurd h (by simp)

theorem find?_append_of_some {α : Type} (l1 l2 : List α) (p : α → Bool) (q : α)
    (h : l1.find? p = some q) : (l1 ++ l2).find? p = some q := by
  induction l1 with
  | nil => exact absurd h (by simp)
  | cons a l1 ih =>
    simp only [List.find?] at h ⊢
    rcases hp : p a with - | -
    · rw [hp] at h
      simp only [List.cons_append, List.find?, hp]
      exact ih h
    · rw [hp] at h
      simpa [List.cons_append, List.find?, hp] using h

theorem find?_setMap_self (rs : RouterState) (k : String) (g : GroupState) :
    (rs.map (fun p => if p.fst = k then (k, g) else p)).find? (fun p => p.fst = k)
      = (rs.find? (fun p => p.fst = k)).map (fun _ => (k, g)) := by
  induction rs with
  | nil => rfl
  | cons p rs ih =>
    simp only [List.map_cons, List.find?]
    by_cases hp : p.fst = k
    · simp only [if_pos hp]
      simp [hp]
    · simp only [if_neg hp]
      simp only [hp, decide_False]
      exact ih

theorem find?_setMap_other (rs : RouterState) (k k' : String) (g : GroupState)
    (hne : k' ≠ k) :
    (rs.map (fun p => if p.fst = k then (k, g) else p)).find? (fun p => p.fst = k')
      = rs.find? (fun p => p.fst = k') := by
  induction rs with
  | nil => rfl
  | cons p rs ih =>
    simp only [List.map_cons, List.find?]
    by_cases hp : p.fst = k
    · have h1 : (decide ((k, g).fst = k')) = false := by simp [Ne.symm hne]
      have h2 : (decide (p.fst = k')) = false := by simp [hp, Ne.symm hne]
      simp only [if_pos hp, h1, h2]
      exact ih
    · simp only [if_neg hp]
      rcases hp' : (decide (p.fst = k')) with - | -
      · simp only [hp']
        exact ih
      · simp only [hp']

theorem getGroup_setGroup_self (rs : RouterState) (k : String) (g : GroupState) :
    getGroup (setGroup rs k g) k = g := by
  unfold setGroup
  rcases hfind : rs.find? (fun p => p.fst = k) with - | q
  · rw [hfind]
    show getGroup (rs ++ [(k, g)]) k = g
    unfold getGroup
    rw [find?_append_of_none rs [(k, g)] _ hfind]
    simp [List.find?]
  · rw [hfind]
    show getGroup (rs.map (fun p => if p.fst = k then (k, g) else p)) k = g
    unfold getGroup
    rw [find?_setMap_self, hfind]
    rfl

theorem getGroup_setGroup_other (rs : RouterState) (k k' : String) (g : GroupState)
    (hne : k' ≠ k) : getGroup (setGroup rs k g) k' = getGroup rs k' := by
  unfold setGroup
  rcases hfind : rs.find? (fun p => p.fst = k) with - | q
  · rw [hfind]
    show getGroup (rs ++ [(k, g)]) k' = getGroup rs k'
    unfold getGroup
    rcases hx : rs.find? (fun p => p.fst = k') with - | q'
    · rw [find?_append_of_none rs [(k, g)] _ hx]
      have hkk : (decide (k = k')) = false := by simp [Ne.symm hne]
      simp [List.find?, hkk, hx]
    · rw [find?_append_of_some rs [(k, g)] _ q' hx, hx]
  · rw [hfind]
    show getGroup (rs.map (fun p => if p.fst = k then (k, g) else p)) k' = getGroup rs k'
    unfold getGroup
    rw [find?_setMap_other rs k k' g hne]

theorem startedFor_append (k : String) (l l' : List (String × RelayEvent)) :
    startedFor k (l ++ l') = startedFor k l ++ startedFor k l' := by
  simp [startedFor, List.filterMap_append]

/-- Dispatcher invariant: per key, the started invocations followed by the
    waiting queue are exactly the observed arrivals, and an idle key has an
    empty queue. -/
theorem routerRun_go (serviceKeys : List String) :
    ∀ (ins : List RouterInput) (rs : RouterState) (started : List (String × RelayEvent))
      (k : String),
      ((getGroup rs k).running = none → (getGroup rs k).queue = []) →
      (startedFor k (ins.foldl (routerStepAcc serviceKeys) (rs, started)).snd ++
          (getGroup (ins.foldl (routerStepAcc serviceKeys) (rs, started)).fst k).queue
        = startedFor k started ++ (getGroup rs k).queue ++ observedFor serviceKeys k ins) ∧
      ((getGroup (ins.foldl (routerStepAcc serviceKeys) (rs, started)).fst k).running = none →
        (getGroup (ins.foldl (routerStepAcc serviceKeys) (rs, started)).fst k).queue = []) := by
  intro ins
  induction ins with
  | nil =>
    intro rs started k hinv
    simp only [List.foldl_nil]
    exact ⟨by simp [observedFor], hinv⟩
  | cons i ins ih =>
    intro rs started k hinv
    rw [List.foldl_cons]
    rcases i with e | k0
    · -- inbound relay event
      rcases hr : resolveServicePubkey serviceKeys e with - | k0
      · -- unresolved: dropped
        have hstep : routerStepAcc serviceKeys (rs, started) (.event e) = (rs, started) := by
          simp [routerStepAcc, routerStep, hr]
        rw [hstep]
        obtain ⟨heq, hinv'⟩ := ih rs started k hinv
        refine ⟨?_, hinv'⟩
        rw [heq]
        have : observedFor serviceKeys k (.event e :: ins) = observedFor serviceKeys k ins := by
          simp [observedFor, List.filterMap_cons, hr]
        rw [this]
      · by_cases hk : k0 = k
        · subst hk
          have hobs : observedFor serviceKeys k0 (.event e :: ins)
              = e :: observedFor serviceKeys k0 ins := by
            simp [observedFor, List.filterMap_cons, hr]
          rcases hrun : (getGroup rs k0).running with - | r
          · -- idle: starts immediately
            have hq0 : (getGroup rs k0).queue = [] := hinv hrun
            have hstep : routerStepAcc serviceKeys (rs, started) (.event e)
                = (setGroup rs k0 { running := some e, queue := (getGroup rs k0).queue },
                   started ++ [(k0, e)]) := by
              simp [routerStepAcc, routerStep, hr, hrun]
            rw [hstep]
            have hg : getGroup (setGroup rs k0
                { running := some e, queue := (getGroup rs k0).queue }) k0
                = { running := some e, queue := (getGroup rs k0).queue } :=
              getGroup_setGroup_self rs k0 _
            obtain ⟨heq, hinv'⟩ := ih (setGroup rs k0
              { running := some e, queue := (getGroup rs k0).queue })
              (started ++ [(k0, e)]) k0
              (by rw [hg]; intro hcontra; exact absurd hcontra (by simp))
            refine ⟨?_, hinv'⟩
            rw [heq, hg, hobs, hq0, startedFor_append]
            have : startedFor k0 [(k0, e)] = [e] := by simp [startedFor]
            rw [this]
            simp
          · -- busy: enqueued
            have hstep : routerStepAcc serviceKeys (rs, started) (.event e)
                = (setGroup rs k0 { getGroup rs k0 with queue := (getGroup rs k0).queue ++ [e] },
                   started) := by
              simp [routerStepAcc, routerStep, hr, hrun]
            rw [hstep]
            have hg : getGroup (setGroup rs k0
                { getGroup rs k0 with queue := (getGroup rs k0).queue ++ [e] }) k0
                = { getGroup rs k0 with queue := (getGroup rs k0).queue ++ [e] } :=
              getGroup_setGroup_self rs k0 _
            obtain ⟨heq, hinv'⟩ := ih (setGroup rs k0
              { getGroup rs k0 with queue := (getGroup rs k0).queue ++ [e] }) started k0
              (by rw [hg]; intro hcontra; simp only at hcontra; rw [hrun] at hcontra
                  exact absurd hcontra (by simp))
            refine ⟨?_, hinv'⟩
            rw [heq, hg, hobs]
            simp
        · -- addressed to a different sub-wallet
          have hobs : observedFor serviceKeys k (.event e :: ins)
              = observedFor serviceKeys k ins := by
            simp [observedFor, List.filterMap_cons, hr, hk]
          rcases hrun : (getGroup rs k0).running with - | r
          · have hstep : routerStepAcc serviceKeys (rs, started) (.event e)
                = (setGroup rs k0 { running := some e, queue := (getGroup rs k0).queue },
                   started ++ [(k0, e)]) := by
              simp [routerStepAcc, routerStep, hr, hrun]
            rw [hstep]
            have hg : getGroup (setGroup rs k0
                { running := some e, queue := (getGroup rs k0).queue }) k
                = getGroup rs k := getGroup_setGroup_other rs k0 k _ (Ne.symm hk)
            obtain ⟨heq, hinv'⟩ := ih (setGroup rs k0
              { running := some e, queue := (getGroup rs k0).queue })
              (started ++ [(k0, e)]) k (by rw [hg]; exact hinv)
            refine ⟨?_, hinv'⟩
            rw [heq, hg, hobs, startedFor_append]
            have : startedFor k [(k0, e)] = [] := by simp [startedFor, hk]
            rw [this]
            simp
          · have hstep : routerStepAcc serviceKeys (rs, started) (.event e)
                = (setGroup rs k0 { getGroup rs k0 with queue := (getGroup rs k0).queue ++ [e] },
                   started) := by
              simp [routerStepAcc, routerStep, hr, hrun]
            rw [hstep]
            have hg : getGroup (setGroup rs k0
                { getGroup rs k0 with queue := (getGroup rs k0).queue ++ [e] }) k
                = getGroup rs k := getGroup_setGroup_other rs k0 k _ (Ne.symm hk)
            obtain ⟨heq, hinv'⟩ := ih (setGroup rs k0
              { getGroup rs k0 with queue := (getGroup rs k0).queue ++ [e] }) started k
              (by rw [hg]; exact hinv)
            refine ⟨?_, hinv'⟩
            rw [heq, hg, hobs]
    · -- completion of a handler
      have hobs : observedFor serviceKeys k (.complete k0 :: ins)
          = observedFor serviceKeys k ins := by
        simp [observedFor, List.filterMap_cons]
      rcases hrun : (getGroup rs k0).running with - | r
      · have hstep : routerStepAcc serviceKeys (rs, started) (.complete k0) = (rs, started) := by
          simp [routerStepAcc, routerStep, hrun]
        rw [hstep]
        obtain ⟨heq, hinv'⟩ := ih rs started k hinv
        exact ⟨by rw [heq, hobs], hinv'⟩
      · rcases hq : (getGroup rs k0).queue with - | ⟨e, rest⟩
        · -- nothing queued: back to idle
          have hstep : routerStepAcc serviceKeys (rs, started) (.complete k0)
              = (setGroup rs k0 { running := none, queue := [] }, started) := by
            simp [routerStepAcc, routerStep, hrun, hq]
          rw [hstep]
          by_cases hk : k0 = k
          · subst hk
            have hg : getGroup (setGroup rs k0 { running := none, queue := [] }) k0
                = { running := none, queue := [] } := getGroup_setGroup_self rs k0 _
            obtain ⟨heq, hinv'⟩ := ih (setGroup rs k0 { running := none, queue := [] })
              started k0 (by rw [hg]; intro; rfl)
            refine ⟨?_, hinv'⟩
            rw [heq, hg, hobs, hq]
          · have hg : getGroup (setGroup rs k0 { running := none, queue := [] }) k
                = getGroup rs k := getGroup_setGroup_other rs k0 k _ (fun hc => hk hc.symm)
            obtain ⟨heq, hinv'⟩ := ih (setGroup rs k0 { running := none, queue := [] })
              started k (by rw [hg]; exact hinv)
            exact ⟨by rw [heq, hg, hobs], hinv'⟩
        · -- dequeue the next event
          have hstep : routerStepAcc serviceKeys (rs, started) (.complete k0)
              = (setGroup rs k0 { running := some e, queue := rest },
                 started ++ [(k0, e)]) := by
            simp [routerStepAcc, routerStep, hrun, hq]
          rw [hstep]
          by_cases hk : k0 = k
          · subst hk
            have hg : getGroup (setGroup rs k0 { running := some e, queue := rest }) k0
                = { running := some e, queue := rest } := getGroup_setGroup_self rs k0 _
            obtain ⟨heq, hinv'⟩ := ih (setGroup rs k0 { running := some e, queue := rest })
              (started ++ [(k0, e)]) k0
              (by rw [hg]; intro hcontra; exact absurd hcontra (by simp))
            refine ⟨?_, hinv'⟩
            rw [heq, hg, hobs, hq, startedFor_append]
            have : startedFor k0 [(k0, e)] = [e] := by simp [startedFor]
            rw [this]
            simp
          · have hg : getGroup (setGroup rs k0 { running := some e, queue := rest }) k
                = getGroup rs k := getGroup_setGroup_other rs k0 k _ (fun hc => hk hc.symm)
            obtain ⟨heq, hinv'⟩ := ih (setGroup rs k0 { running := some e, queue := rest })
              (started ++ [(k0, e)]) k (by rw [hg]; exact hinv)
            refine ⟨?_, hinv'⟩
            rw [heq, hg, hobs, startedFor_append]
            have : startedFor k [(k0, e)] = [] := by simp [startedFor, hk]
            rw [this]
            simp

/-- `adjustBalance` on an existing row: succeeds, applies the delta to the
    stored row and to the returned record, and leaves the invoice table
    unchanged. -/
theorem adjustBalance_spec (now : String) (st : Store) (sid : String) (delta : Int)
    (record : SubAccountRecord) (hrec : getSubAccountById st sid = some record) :
    ∃ st1,
      adjustBalance now st sid delta = some (st1,
        { record with balanceMsats := record.balanceMsats + delta, updatedAt := now }) ∧
      st1.invoices = st.invoices ∧
      getSubAccountById st1 sid = some
        { record with balanceMsats := record.balanceMsats + delta, updatedAt := now } := by
  have hlook :
      getSubAccountById
        { st with
          subAccounts := updateSubAccountRows st.subAccounts sid
            (fun a => { a with balanceMsats := a.balanceMsats + delta, updatedAt := now }) }
        sid
      = some { record with balanceMsats := record.balanceMsats + delta, updatedAt := now } := by
    unfold getSubAccountById
    rw [find?_updateSubAccountRows st.subAccounts sid
      (fun a => { a with balanceMsats := a.balanceMsats + delta, updatedAt := now })
      (fun a => rfl)]
    unfold getSubAccountById at hrec
    rw [hrec]
    rfl
  refine ⟨_, ?_, ?_, hlook⟩
  · simp only [adjustBalance]
    rw [hlook]
  · rfl

/-- Reading the touched row: `touchSubAccount` preserves the balance. -/
theorem getSubAccountById_touch (now : String) (st : Store) (sid : String) :
    getSubAccountById (touchSubAccount now st sid) sid
      = (getSubAccountById st sid).map
          (fun a =>
            { a with
              lastUsedAt := some now, usageCount := a.usageCount + 1, updatedAt := now }) := by
  unfold touchSubAccount getSubAccountById
  rw [find?_updateSubAccountRows st.subAccounts sid
    (fun a =>
      { a with lastUsedAt := some now, usageCount := a.usageCount + 1, updatedAt := now })
    (fun a => rfl)]

/-! ## Claim theorems -/

/-- C1: the settlement correlator is not idempotent.  On a store holding one
    pending 100000-msat invoice, applying the upstream settlement notification
    once credits the balance to 100000 and marks the invoice settled; the
    matched invoice then being in a terminal state, the claim requires the
    second application to have no further side effects — but re-applying the
    same notification credits the balance again, to 200000:
    `findPendingInvoice` filters on no state and `settlePending` has no
    terminal-state guard. -/
theorem claim_C1_settlement_not_idempotent :
    (getSubAccountById
        (handlePaymentNotification "2024-02-01T00:00:00.000Z" exSettleStore
          exSettleNotification) "acct").map (fun a => a.balanceMsats) = some 100000 ∧
    (getPendingInvoiceById
        (handlePaymentNotification "2024-02-01T00:00:00.000Z" exSettleStore
          exSettleNotification) "inv1").map (fun i => i.state) = some .settled ∧
    (getSubAccountById
        (handlePaymentNotification "2024-02-02T00:00:00.000Z"
          (handlePaymentNotification "2024-02-01T00:00:00.000Z" exSettleStore
            exSettleNotification) exSettleNotification) "acct").map
      (fun a => a.balanceMsats) = some 200000 := by
  decide

/-- C2: `pay_invoice` ledger atomicity.  The amount resolves to the (positive)
    BOLT11-embedded amount when present, else a positive supplied amount, else
    the handler fails with the missing-amount error; a resolved amount above
    the balance fails with `insufficient_balance` (no state is touched on any
    failure path, which the handler expresses by returning no store); an
    upstream rejection propagates before the debit; on upstream success the
    balance is debited exactly once by the resolved amount. -/
theorem claim_C2_pay_invoice_atomicity
    (parse : String → Option Int) (upstreamOk : Bool) (now : String) (st : Store)
    (subId invoice : String) (amount : Option Int) (record : SubAccountRecord)
    (hrec : getSubAccountById st subId = some record) :
    (∀ e, parse invoice = some e → 0 < e →
        resolveInvoiceAmount parse invoice amount = some e) ∧
    (msatsFromInvoice parse invoice = none → ∀ f, amount = some f → 0 < f →
        resolveInvoiceAmount parse invoice amount = some f) ∧
    (resolveInvoiceAmount parse invoice amount = none →
        payInvoiceHandler parse upstreamOk now st subId invoice amount
          = .error .missingAmount) ∧
    (∀ amt, resolveInvoiceAmount parse invoice amount = some amt →
      (record.balanceMsats < amt →
          payInvoiceHandler parse upstreamOk now st subId invoice amount
            = .error .insufficientBalance) ∧
      (¬ record.balanceMsats < amt → upstreamOk = false →
          payInvoiceHandler parse upstreamOk now st subId invoice amount
            = .error .upstreamFailure) ∧
      (¬ record.balanceMsats < amt → upstreamOk = true →
          ∃ st', payInvoiceHandler parse upstreamOk now st subId invoice amount
              = .ok (st', amt) ∧
            (getSubAccountById st' subId).map (fun r => r.balanceMsats)
              = some (record.balanceMsats - amt))) := by
  refine ⟨?_, ?_, ?_, ?_⟩
  · intro e he hpos
    simp [resolveInvoiceAmount, msatsFromInvoice, he, hpos]
  · intro hemb f hf hpos
    simp [resolveInvoiceAmount, hemb, hf, hpos]
  · intro hres
    simp [payInvoiceHandler, hrec, hres]
  · intro amt hres
    refine ⟨?_, ?_, ?_⟩
    · intro hlt
      simp [payInvoiceHandler, hrec, hres, hlt]
    · intro hge hup
      subst hup
      simp [payInvoiceHandler, hrec, hres, hge]
    · intro hge hup
      subst hup
      obtain ⟨st1, hadj, -, hlook⟩ := adjustBalance_spec now st subId (-amt) record hrec
      refine ⟨touchSubAccount now st1 subId, ?_, ?_⟩
      · simp only [payInvoiceHandler, hrec, hres, if_neg hge, hadj]
        simp
      · rw [getSubAccountById_touch, hlook]
        simp
        omega

/-- C3 counterexample: `adjust_balance` does not fail with
    `insufficient_balance` when the resulting balance is negative — on a
    sub-account holding 5 msats, a delta of −10 succeeds and both the returned
    record and the stored row show `balance_msats = −5`. -/
theorem claim_C3_counterexample :
    (adjustBalance "2024-02-01T00:00:00.000Z" exNegStore "acct" (-10)).map
        (fun x => x.snd.balanceMsats) = some (-5) ∧
    (adjustBalance "2024-02-01T00:00:00.000Z" exNegStore "acct" (-10)).map
        (fun x => (getSubAccountById x.fst "acct").map (fun a => a.balanceMsats))
      = some (some (-5)) := by
  decide

/-- C3 amended: `adjust_balance` applies the signed delta unconditionally —
    it succeeds whenever the row exists, even when the resulting balance is
    negative; the non-negativity of balances is enforced only by the
    `pay_invoice` handler's own pre-debit check, so a `pay_invoice` call never
    drives a non-negative balance negative. -/
theorem claim_C3_adjust_balance_unguarded
    (now : String) (st : Store) (sid : String) (delta : Int) (record : SubAccountRecord)
    (hrec : getSubAccountById st sid = some record) :
    (∃ st' r, adjustBalance now st sid delta = some (st', r) ∧
        r.balanceMsats = record.balanceMsats + delta) ∧
    (∀ (parse : String → Option Int) (upstreamOk : Bool) (invoice : String)
        (amount : Option Int) (st' : Store) (amt : Int),
        payInvoiceHandler parse upstreamOk now st sid invoice amount = .ok (st', amt) →
        0 ≤ record.balanceMsats →
        (getSubAccountById st' sid).map (fun x => x.balanceMsats)
            = some (record.balanceMsats - amt) ∧ 0 ≤ record.balanceMsats - amt) := by
  constructor
  · obtain ⟨st1, hadj, -, -⟩ := adjustBalance_spec now st sid delta record hrec
    exact ⟨st1, _, hadj, rfl⟩
  · intro parse upstreamOk invoice amount st' amt hok hnn
    unfold payInvoiceHandler at hok
    simp only [hrec] at hok
    rcases hres : resolveInvoiceAmount parse invoice amount with - | amt0
    · simp only [hres] at hok
      exact absurd hok (by simp)
    · simp only [hres] at hok
      by_cases hlt : record.balanceMsats < amt0
      · rw [if_pos hlt] at hok
        exact absurd hok (by simp)
      · rw [if_neg hlt] at hok
        rcases upstreamOk with - | -
        · exact absurd hok (by simp)
        · simp only [if_true] at hok
          obtain ⟨st1, hadj, -, hlook⟩ := adjustBalance_spec now st sid (-amt0) record hrec
          rw [hadj] at hok
          simp only [Except.ok.injEq, Prod.mk.injEq] at hok
          obtain ⟨hst', hamt⟩ := hok
          subst hst'
          subst hamt
          constructor
          · rw [getSubAccountById_touch, hlook]
            simp
            omega
          · omega

/-- C10: per-sub-wallet FIFO.  For every input trace and every service
    pubkey, the handler invocations the router begins for that key form an
    initial segment of the events the router observed addressed to that key,
    in arrival order (the remainder being the events still queued when the
    trace ends).  Across different keys the dispatcher imposes no order. -/
theorem claim_C10_router_fifo (serviceKeys : List String) (ins : List RouterInput)
    (k : String) :
    ∃ rest, startedFor k (routerRun serviceKeys ins).snd ++ rest
      = observedFor serviceKeys k ins := by
  have h := (routerRun_go serviceKeys ins [] [] k (fun _ => rfl)).1
  refine ⟨(getGroup (ins.foldl (routerStepAcc serviceKeys) ([], [])).fst k).queue, ?_⟩
  rw [routerRun]
  rw [h]
  simp [startedFor, getGroup, List.find?]

/-- C4 counterexample: `updateBalances` with an explicit `pending_msats`
    (here via `setPending`) writes the supplied value verbatim.  On a
    consistent store (aggregate 100 = sum of pending invoices), setting
    `pending_msats := 7` leaves the canonical sum at 100, so I-1 no longer
    holds after this ledger-store operation. -/
theorem claim_C4_counterexample :
    aggregateOk exPendingStore ∧ storeWf exPendingStore ∧
    (setPending "2024-02-01T00:00:00.000Z" exPendingStore "acct" 7).map
        (fun x => (getSubAccountById x.fst "acct").map (fun a => a.pendingMsats))
      = some (some 7) ∧
    (setPending "2024-02-01T00:00:00.000Z" exPendingStore "acct" 7).map
        (fun x => pendingSum x.fst "acct") = some 100 := by
  refine ⟨?_, ?_, by decide, by decide⟩
  · intro a ha
    simp only [exPendingStore, List.mem_singleton] at ha
    subst ha
    decide
  · refine ⟨by decide, by decide, ?_⟩
    intro i hi
    simp only [exPendingStore, List.mem_singleton] at hi
    subst hi
    exact ⟨mkSubAccount "acct" 0 100, by decide, by decide⟩

/-- C4 amended: on a well-formed store satisfying I-1, every ledger-store
    operation — create, register pending invoice, update invoice state,
    delete pending invoice, prune expired, and `updateBalances` *without* a
    `pending_msats` override — leaves I-1 holding; an `updateBalances` call
    that supplies `pending_msats` writes it verbatim and can break I-1. -/
theorem claim_C4_aggregate_invariant (now : String) (st : Store)
    (hwf : storeWf st) (hok : aggregateOk st) :
    (∀ p st' r, createSubAccount now st p = some (st', r) → aggregateOk st') ∧
    (∀ p st' inv, registerPendingInvoice now st p = some (st', inv) → aggregateOk st') ∧
    (∀ iid s sAt, aggregateOk (updatePendingInvoiceState now st iid s sAt).fst) ∧
    (∀ iid, aggregateOk (deletePendingInvoice now st iid)) ∧
    (∀ cutoff, aggregateOk (pruneExpiredPending now st cutoff).fst) ∧
    (∀ sid b st' r,
        updateBalances now st
          { subAccountId := sid, balanceMsats := b, pendingMsats := none } = some (st', r) →
        aggregateOk st') := by
  refine ⟨?_, ?_, ?_, ?_, ?_, ?_⟩
  · intro p st' r h
    exact aggregateOk_create now st p st' r hwf hok h
  · intro p st' inv h
    exact aggregateOk_register now st p st' inv hok h
  · intro iid s sAt
    exact aggregateOk_updateState now st iid s sAt hwf hok
  · intro iid
    exact aggregateOk_delete now st iid hwf hok
  · intro cutoff
    apply prune_fold_aggOk
    · intro row hrow i hi hid
      have hrow' : row ∈ st.invoices := List.mem_of_mem_filter hrow
      have : i = row := nodup_key_unique st.invoices (fun j => j.id) hwf.2.1 hi hrow' hid
      rw [this]
    · exact hok
  · intro sid b st' r h
    exact aggregateOk_updateBalances_balanceOnly now st sid b st' r hwf hok h

/-- C5 counterexample: `prune_expired` does not leave non-pending invoices
    untouched and does not transition anything to `expired` — on a store
    whose only invoice is `settled` with `expires_at = 10`, pruning at cutoff
    20 removes the row from the table entirely. -/
theorem claim_C5_counterexample :
    (getPendingInvoiceById exPruneStore "done").map (fun i => i.state) = some .settled ∧
    (pruneExpiredPending "2024-02-01T00:00:00.000Z" exPruneStore 20).fst.invoices = [] ∧
    (pruneExpiredPending "2024-02-01T00:00:00.000Z" exPruneStore 20).snd.map
      (fun i => i.id) = ["done"] := by
  decide

/-- A prune whose selection is empty is the identity. -/
theorem pruneExpiredPending_no_matches (now : String) (st : Store) (cutoff : Int)
    (h : st.invoices.filter (expiredSelect cutoff) = []) :
    pruneExpiredPending now st cutoff = (st, []) := by
  simp only [pruneExpiredPending, h]
  rfl

/-- C5 amended: `prune_expired(cutoff)` deletes from the table exactly the
    invoices with a non-null `expires_at ≤ cutoff`, regardless of state
    (rather than transitioning pending rows to `expired`); it returns the
    selected rows, changes no account's balance, refreshes the owners'
    aggregates (I-1 is preserved), and is idempotent: a second run at the
    same cutoff returns the same store unchanged with no affected rows. -/
theorem claim_C5_prune_deletes (now now' : String) (st : Store) (cutoff : Int)
    (hwf : storeWf st) (hok : aggregateOk st) :
    (pruneExpiredPending now st cutoff).fst.invoices
        = st.invoices.filter (fun i => ¬ expiredSelect cutoff i) ∧
    (pruneExpiredPending now st cutoff).snd = st.invoices.filter (expiredSelect cutoff) ∧
    (pruneExpiredPending now st cutoff).fst.subAccounts.map (fun a => (a.id, a.balanceMsats))
        = st.subAccounts.map (fun a => (a.id, a.balanceMsats)) ∧
    aggregateOk (pruneExpiredPending now st cutoff).fst ∧
    pruneExpiredPending now' (pruneExpiredPending now st cutoff).fst cutoff
        = ((pruneExpiredPending now st cutoff).fst, []) := by
  have hinv : (pruneExpiredPending now st cutoff).fst.invoices
      = st.invoices.filter (fun i => ¬ expiredSelect cutoff i) := by
    show (List.foldl _ st _).invoices = _
    rw [prune_fold_invoices]
    apply List.filter_congr
    intro i hi
    by_cases hexp : expiredSelect cutoff i
    · have himem : i ∈ st.invoices.filter (expiredSelect cutoff) :=
        List.mem_filter.mpr ⟨hi, hexp⟩
      have hne : ((st.invoices.filter (expiredSelect cutoff)).all
          (fun r => decide (¬ i.id = r.id))) = false := by
        apply Bool.eq_false_iff.mpr
        intro hall
        rw [List.all_eq_true] at hall
        have h2 := hall i himem
        simp at h2
      rw [hne]
      simp [hexp]
    · have hall : ((st.invoices.filter (expiredSelect cutoff)).all
          (fun r => decide (¬ i.id = r.id))) = true := by
        rw [List.all_eq_true]
        intro r hr
        have hr' : r ∈ st.invoices := List.mem_of_mem_filter hr
        have hne2 : ¬ i.id = r.id := by
          intro hid
          have : i = r := nodup_key_unique st.invoices (fun j => j.id) hwf.2.1 hi hr' hid
          subst this
          exact hexp (List.of_mem_filter hr)
        simpa using hne2
      rw [hall]
      simp [hexp]
  refine ⟨hinv, rfl, ?_, ?_, ?_⟩
  · exact prune_fold_balances now _ st
  · apply prune_fold_aggOk
    · intro row hrow i hi hid
      have hrow' : row ∈ st.invoices := List.mem_of_mem_filter hrow
      have : i = row := nodup_key_unique st.invoices (fun j => j.id) hwf.2.1 hi hrow' hid
      rw [this]
    · exact hok
  · have hsel : (pruneExpiredPending now st cutoff).fst.invoices.filter
        (expiredSelect cutoff) = [] := by
      rw [hinv, List.filter_filter]
      apply List.filter_eq_nil_iff.mpr
      intro i hi
      simp
    exact pruneExpiredPending_no_matches now' _ cutoff hsel

/-- C6: the startup prune mixes clock units.  `start` passes `Date.now()` —
    unix *milliseconds*, so at least 10^12 for any date from 2001-09-09
    onwards — as the cutoff that `pruneExpiredPending` compares against
    `expires_at` values stored in unix *seconds* (at most 10^12 until the year
    33658).  Hence on startup every invoice with any expiry set, in any state,
    is removed from the `pending_invoices` table. -/
theorem claim_C6_startup_prune_clock_mismatch (now : String) (nowMs : Int) (st : Store)
    (inv : PendingInvoiceRecord) (e : Int)
    (hmem : inv ∈ st.invoices) (hexp : inv.expiresAt = some e)
    (hsec : e ≤ 1000000000000) (hms : 1000000000000 ≤ nowMs) :
    ∀ j ∈ (startExpiryPrune now nowMs st).fst.invoices, j.id ≠ inv.id := by
  intro j hj
  have hjf : j ∈ st.invoices.filter
      (fun i => (st.invoices.filter (expiredSelect nowMs)).all (fun r => ¬ i.id = r.id)) := by
    have hfold : (startExpiryPrune now nowMs st).fst.invoices
        = st.invoices.filter
          (fun i => (st.invoices.filter (expiredSelect nowMs)).all (fun r => ¬ i.id = r.id)) :=
      prune_fold_invoices now _ st
    rw [hfold] at hj
    exact hj
  have hsel : inv ∈ st.invoices.filter (expiredSelect nowMs) := by
    apply List.mem_filter.mpr
    refine ⟨hmem, ?_⟩
    simp only [expiredSelect, hexp]
    simp
    omega
  have hall := List.of_mem_filter hjf
  rw [List.all_eq_true] at hall
  have := hall inv hsel
  simpa using this

/-- C7 counterexample: `update_pending_invoice_state` accepts the transition
    settled → pending, which the claim requires to fail with
    `invalid_transition` and leave everything unchanged.  On a store whose
    only invoice is `settled`, the call succeeds, returns the row in state
    `pending`, and pushes the owner's `pending_msats` aggregate from 0 back
    up to 100. -/
theorem claim_C7_counterexample :
    (getPendingInvoiceById exTransStore "inv1").map (fun i => i.state) = some .settled ∧
    (getSubAccountById exTransStore "acct").map (fun a => a.pendingMsats) = some 0 ∧
    ((updatePendingInvoiceState "2024-02-01T00:00:00.000Z" exTransStore "inv1"
        .pending none).snd).map (fun i => i.state) = some .pending ∧
    (getSubAccountById (updatePendingInvoiceState "2024-02-01T00:00:00.000Z" exTransStore
        "inv1" .pending none).fst "acct").map (fun a => a.pendingMsats) = some 100 := by
  decide

/-- C7 amended: `update_pending_invoice_state` validates no transition.  When
    the id is unknown it returns `undefined` and leaves the store untouched;
    otherwise it writes the requested state verbatim — any state, from any
    state — together with `settled_at := supplied value (or NULL)` and
    `updated_at := now`, refreshes the owner's aggregate, and returns the
    updated row.  No `invalid_transition` error exists in this code path. -/
theorem claim_C7_update_state_unvalidated (now : String) (st : Store) (iid : String)
    (s : PendingInvoiceState) (sAt : Option String) :
    (getPendingInvoiceById st iid = none →
        updatePendingInvoiceState now st iid s sAt = (st, none)) ∧
    (∀ p, getPendingInvoiceById st iid = some p →
        ∃ st',
          updatePendingInvoiceState now st iid s sAt
            = (st', some { p with state := s, settledAt := sAt, updatedAt := now }) ∧
          st'.invoices = updateInvoiceRows st.invoices iid
            (fun i => { i with state := s, settledAt := sAt, updatedAt := now }) ∧
          (∀ a ∈ st'.subAccounts, a.id = p.subAccountId →
              a.pendingMsats = pendingSum st' a.id)) := by
  constructor
  · intro hnone
    unfold updatePendingInvoiceState
    rw [hnone]
  · intro p hp
    have hpid : p.id = iid := by
      have := List.find?_some hp
      simpa using this
    have hlook2 : getPendingInvoiceById
        (refreshPendingAggregate now
          { st with
            invoices := updateInvoiceRows st.invoices iid
              (fun i => { i with state := s, settledAt := sAt, updatedAt := now }) }
          p.subAccountId) iid
        = some { p with state := s, settledAt := sAt, updatedAt := now } := by
      show (updateInvoiceRows st.invoices iid _).find? _ = _
      rw [find?_updateInvoiceRows st.invoices iid
        (fun i => { i with state := s, settledAt := sAt, updatedAt := now })
        (fun i => rfl)]
      unfold getPendingInvoiceById at hp
      rw [hp]
      rfl
    refine ⟨refreshPendingAggregate now
        { st with
          invoices := updateInvoiceRows st.invoices iid
            (fun i => { i with state := s, settledAt := sAt, updatedAt := now }) }
        p.subAccountId, ?_, rfl, ?_⟩
    · unfold updatePendingInvoiceState
      rw [hp]
      simp only []
      rw [hlook2]
    · intro a ha hid
      simp only [refreshPendingAggregate, updateSubAccountRows, List.mem_map] at ha
      obtain ⟨a0, ha0, rfl⟩ := ha
      by_cases h0 : a0.id = p.subAccountId
      · simp only [if_pos h0]
        show pendingSum _ p.subAccountId = _
        rw [← h0]
        exact (pendingSum_refresh now _ a0.id a0.id).symm
      · simp only [if_neg h0] at hid ⊢
        exact absurd hid h0

/-- C9 counterexample: `find_pending_invoice` has no field-preference order.
    The store holds invoice `A` carrying exactly the queried `payment_hash`
    and a more recently updated invoice `B` matching only the queried BOLT11
    string; the claim requires `A`, but the single disjunctive query returns
    `B` on account of its later `updated_at`. -/
theorem claim_C9_counterexample :
    (getPendingInvoiceById exFindStore "A").map (fun r => r.paymentHash)
        = some (some "hash1") ∧
    exFindCriteria.paymentHash = some "hash1" ∧
    (getPendingInvoiceById exFindStore "B").map (fun r => r.paymentHash) = some none ∧
    (findPendingInvoice exFindStore exFindCriteria).map (fun r => r.id) = some "B" := by
  decide

/-- C9 amended: `find_pending_invoice` treats the three lookup fields as one
    disjunction — a row matches when any supplied field equals the row's
    column — and returns the matching row with the greatest `updated_at`
    (ties resolved by table order, which SQLite leaves unspecified); when no
    row matches it returns nothing.  No preference between payment_hash,
    invoice and description_hash exists. -/
theorem claim_C9_find_latest_match (st : Store) (c : PendingLookupCriteria) :
    (∀ r, findPendingInvoice st c = some r →
        r ∈ st.invoices ∧ matchesCriteria c r = true ∧
          ∀ i ∈ st.invoices, matchesCriteria c i = true →
            strLt r.updatedAt i.updatedAt = false) ∧
    (findPendingInvoice st c = none → ∀ i ∈ st.invoices, matchesCriteria c i = false) := by
  constructor
  · intro r hr
    obtain ⟨hsrc, hmax, -⟩ := foldl_pickLatest_spec (st.invoices.filter (matchesCriteria c))
      none r hr
    have hrmem : r ∈ st.invoices.filter (matchesCriteria c) := by
      rcases hsrc with hsrc | hsrc
      · exact absurd hsrc (by simp)
      · exact hsrc
    refine ⟨List.mem_of_mem_filter hrmem, List.of_mem_filter hrmem, ?_⟩
    intro i hi hmatch
    exact hmax i (List.mem_filter.mpr ⟨hi, hmatch⟩)
  · intro hnone i hi
    have hempty : st.invoices.filter (matchesCriteria c) = [] :=
      (foldl_pickLatest_eq_none (st.invoices.filter (matchesCriteria c)) none hnone).2
    by_cases hm : matchesCriteria c i
    · have : i ∈ st.invoices.filter (matchesCriteria c) := List.mem_filter.mpr ⟨hi, hm⟩
      rw [hempty] at this
      exact absurd this (by simp)
    · simpa using hm

/-! ## Vault lemmas -/

theorem length_natToBytes16 (n : Nat) : (natToBytes16 n).length = 16 := by
  simp [natToBytes16]

theorem length_flatMap_16 {α : Type} (l : List α) (f : α → List Nat)
    (h : ∀ a ∈ l, (f a).length = 16) : (l.flatMap f).length = 16 * l.length := by
  induction l with
  | nil => rfl
  | cons a l ih =>
    simp only [List.flatMap_cons, List.length_append, List.length_cons]
    rw [h a (List.mem_cons_self a l), ih (fun b hb => h b (List.mem_cons_of_mem a hb))]
    ring

theorem ctrKeystream_length (key iv : List Nat) (n : Nat) :
    (ctrKeystream key iv n).length = n := by
  unfold ctrKeystream
  rw [List.length_take]
  rw [length_flatMap_16 _ _ (fun a _ => length_natToBytes16 _)]
  rw [List.length_range]
  omega

theorem gcmEncrypt_length (key iv p : List Nat) :
    (gcmEncrypt key iv p).length = p.length := by
  unfold gcmEncrypt
  rw [List.length_zipWith, ctrKeystream_length]
  omega

theorem zipWith_xor_cancel :
    ∀ (p ks : List Nat), p.length ≤ ks.length →
      List.zipWith Nat.xor (List.zipWith Nat.xor p ks) ks = p := by
  intro p
  induction p with
  | nil => intro ks _; simp
  | cons b p ih =>
    intro ks hlen
    cases ks with
    | nil => simp at hlen
    | cons c ks =>
      simp only [List.zipWith_cons_cons, List.cons.injEq]
      refine ⟨Nat.xor_cancel_right c b, ih ks (by simpa using hlen)⟩

/-- Splitting the envelope: `decryptBuffer` on a well-formed frame reduces to
    the authentication check. -/
theorem decryptBuffer_frame (key iv tag ct : List Nat)
    (hiv : iv.length = 12) (htag : tag.length = 16) :
    decryptBuffer key (1 :: 12 :: (iv ++ tag ++ ct))
      = if tag = gcmTag key iv ct then
          .ok (List.zipWith Nat.xor ct (ctrKeystream key iv ct.length))
        else .error .authFailure := by
  have hrest : (iv ++ tag ++ ct) = iv ++ (tag ++ ct) := by rw [List.append_assoc]
  have hlen : (1 :: 12 :: (iv ++ tag ++ ct)).length = 30 + ct.length := by
    simp [List.length_append, hiv, htag]
    omega
  have hdrop2 : (1 :: 12 :: (iv ++ tag ++ ct)).drop 2 = iv ++ (tag ++ ct) := by
    rw [← hrest]; rfl
  have htake12 : ((1 :: 12 :: (iv ++ tag ++ ct)).drop 2).take 12 = iv := by
    rw [hdrop2]
    exact List.take_left' hiv
  have hdrop14 : (1 :: 12 :: (iv ++ tag ++ ct)).drop 14 = tag ++ ct := by
    have : (1 :: 12 :: (iv ++ tag ++ ct)).drop 14 = (iv ++ (tag ++ ct)).drop 12 := by
      rw [← hrest]; rfl
    rw [this]
    exact List.drop_left' hiv
  have htake16 : ((1 :: 12 :: (iv ++ tag ++ ct)).drop 14).take 16 = tag := by
    rw [hdrop14]
    exact List.take_left' htag
  have hdrop30 : (1 :: 12 :: (iv ++ tag ++ ct)).drop 30 = ct := by
    have h1 : (1 :: 12 :: (iv ++ tag ++ ct)).drop 30 = (iv ++ (tag ++ ct)).drop 28 := by
      rw [← hrest]; rfl
    have h2 : (iv ++ (tag ++ ct)).drop 28 = ((iv ++ (tag ++ ct)).drop 12).drop 16 := by
      rw [List.drop_drop]
    rw [h1, h2, List.drop_left' hiv, List.drop_left' htag]
  unfold decryptBuffer
  rw [hlen, htake12, htake16, hdrop30]
  have hc1 : ¬ (30 + ct.length < 2 + 12 + 16) := by omega
  rw [if_neg hc1]
  have hv : (1 :: 12 :: (iv ++ tag ++ ct)).getD 0 0 = 1 := rfl
  have hl : (1 :: 12 :: (iv ++ tag ++ ct)).getD 1 0 = 12 := rfl
  rw [hv, hl]
  simp

/-- C8 amended: the vault envelope is exactly
    `[0x01][0x0C][12-byte iv][16-byte tag][ciphertext]` under AES-256-GCM;
    `decrypt(encrypt(x)) = x` bit-exactly for every 32-byte plaintext (any
    32-byte key and 12-byte IV); and every envelope whose *tag* differs from
    the GCM tag of its ciphertext — in particular any tag tampering — fails
    with the authentication failure.  (Not every *ciphertext* tampering
    fails: a tampering that preserves the GHASH value is accepted, see the
    counterexample.) -/
theorem claim_C8_envelope_roundtrip (key iv x : List Nat)
    (hkey : key.length = 32) (hiv : iv.length = 12) (hx : x.length = 32) :
    encryptBuffer key iv x
        = 1 :: 12 :: (iv ++ gcmTag key iv (gcmEncrypt key iv x) ++ gcmEncrypt key iv x) ∧
    decryptBuffer key (encryptBuffer key iv x) = .ok x ∧
    (∀ tag', tag'.length = 16 → tag' ≠ gcmTag key iv (gcmEncrypt key iv x) →
        decryptBuffer key (1 :: 12 :: (iv ++ tag' ++ gcmEncrypt key iv x))
          = .error .authFailure) := by
  have htag : (gcmTag key iv (gcmEncrypt key iv x)).length = 16 := length_natToBytes16 _
  refine ⟨rfl, ?_, ?_⟩
  · show decryptBuffer key
        (1 :: 12 :: (iv ++ gcmTag key iv (gcmEncrypt key iv x) ++ gcmEncrypt key iv x))
      = .ok x
    rw [decryptBuffer_frame key iv _ _ hiv htag, if_pos rfl, gcmEncrypt_length]
    show Except.ok (List.zipWith Nat.xor
        (List.zipWith Nat.xor x (ctrKeystream key iv x.length))
        (ctrKeystream key iv x.length)) = Except.ok x
    rw [zipWith_xor_cancel x _ (by rw [ctrKeystream_length])]
  · intro tag' hlen hne
    rw [decryptBuffer_frame key iv _ _ hiv hlen, if_neg hne]

/-- C8 counterexample: a ciphertext-tampered envelope that decrypts
    successfully.  `gcmExTampered` keeps the genuine header, IV and tag,
    changes the 32-byte ciphertext (adding the constant 1 to the first GHASH
    block and `1 · H` to the second, which cancels in the MAC), yet
    `decryptBuffer` accepts it — refuting "for every envelope whose
    ciphertext or tag has been tampered with, decrypt fails". -/
theorem claim_C8_counterexample :
    gcmExTampered ≠ gcmExEnv ∧
    gcmExTampered.take 30 = gcmExEnv.take 30 ∧
    gcmExTampered.length = gcmExEnv.length ∧
    (decryptBuffer gcmExKey gcmExTampered).isOk = true ∧
    (decryptBuffer gcmExKey gcmExEnv).toOption = some gcmExPlain := by
  decide

/-- Witness for the C8 theorem at concrete inputs: the example key, IV and
    plaintext round-trip, and an all-zero tag is rejected. -/
theorem claim_C8_witness :
    decryptBuffer gcmExKey (encryptBuffer gcmExKey gcmExIv gcmExPlain)
        = .ok gcmExPlain ∧
    decryptBuffer gcmExKey (1 :: 12 :: (gcmExIv ++ List.replicate 16 0 ++
        gcmEncrypt gcmExKey gcmExIv gcmExPlain)) = .error .authFailure := by
  have h := claim_C8_envelope_roundtrip gcmExKey gcmExIv gcmExPlain
    (by decide) (by decide) (by decide)
  exact ⟨h.2.1, h.2.2 (List.replicate 16 0) (by decide) (by decide)⟩

/-! ## Witnesses at concrete inputs -/

/-- Witness for C2: paying a 600000-msat invoice from a 1000000-msat
    sub-account succeeds and leaves 400000. -/
theorem claim_C2_witness :
    ((payInvoiceHandler (fun _ => some 600000) true "2024-02-01T00:00:00.000Z" exPayStore
        "acct" "lnbc600u" none).toOption).map
      (fun x => ((getSubAccountById x.fst "acct").map (fun r => r.balanceMsats), x.snd))
      = some (some 400000, 600000) := by
  have h := claim_C2_pay_invoice_atomicity (fun _ => some 600000) true
    "2024-02-01T00:00:00.000Z" exPayStore "acct" "lnbc600u" none
    (mkSubAccount "acct" 1000000 0) (by decide)
  obtain ⟨st', heq, hbal⟩ := (h.2.2.2 600000 (by decide)).2.2 (by decide) rfl
  rw [heq]
  show some (Option.map (fun r => r.balanceMsats) (getSubAccountById st' "acct"),
      (600000 : Int)) = some (some 400000, 600000)
  rw [hbal]
  decide

/-- Witness for the amended C3: the −10 delta on the 5-msat account
    succeeds, returning balance −5. -/
theorem claim_C3_witness :
    (adjustBalance "2024-02-02T00:00:00.000Z" exNegStore "acct" (-10)).map
      (fun x => x.snd.balanceMsats) = some (-5) := by
  have h := claim_C3_adjust_balance_unguarded "2024-02-02T00:00:00.000Z" exNegStore
    "acct" (-10) (mkSubAccount "acct" 5 0) (by decide)
  obtain ⟨st', r, heq, hbal⟩ := h.1
  rw [heq]
  simp only [Option.map]
  rw [hbal]
  decide

/-- Witness for the amended C4: after settling `exPendingStore`'s invoice
    through `updatePendingInvoiceState`, every account's stored aggregate
    equals the canonical sum. -/
theorem claim_C4_witness :
    ((updatePendingInvoiceState "2024-02-01T00:00:00.000Z" exPendingStore "inv1"
        .settled none).fst.subAccounts.all
      (fun a => a.pendingMsats ==
        pendingSum (updatePendingInvoiceState "2024-02-01T00:00:00.000Z" exPendingStore
          "inv1" .settled none).fst a.id)) = true := by
  have h := (claim_C4_aggregate_invariant "2024-02-01T00:00:00.000Z" exPendingStore
    (by refine ⟨by decide, by decide, ?_⟩
        intro i hi
        simp only [exPendingStore, List.mem_singleton] at hi
        subst hi
        exact ⟨mkSubAccount "acct" 0 100, by decide, by decide⟩)
    (by intro a ha
        simp only [exPendingStore, List.mem_singleton] at ha
        subst ha
        decide)).2.2.1 "inv1" .settled none
  rw [List.all_eq_true]
  intro a ha
  simpa using h a ha

/-- Witness for the amended C5: pruning `exPruneStore` at cutoff 20 empties
    the invoice table, and a second prune is the identity. -/
theorem claim_C5_witness :
    (pruneExpiredPending "2024-02-01T00:00:00.000Z" exPruneStore 20).fst.invoices = [] ∧
    pruneExpiredPending "2024-02-03T00:00:00.000Z"
        (pruneExpiredPending "2024-02-01T00:00:00.000Z" exPruneStore 20).fst 20
      = ((pruneExpiredPending "2024-02-01T00:00:00.000Z" exPruneStore 20).fst, []) := by
  have h := claim_C5_prune_deletes "2024-02-01T00:00:00.000Z" "2024-02-03T00:00:00.000Z"
    exPruneStore 20
    (by refine ⟨by decide, by decide, ?_⟩
        intro i hi
        simp only [exPruneStore, List.mem_singleton] at hi
        subst hi
        exact ⟨mkSubAccount "acct" 0 0, by decide, by decide⟩)
    (by intro a ha
        simp only [exPruneStore, List.mem_singleton] at ha
        subst ha
        decide)
  refine ⟨?_, h.2.2.2.2⟩
  rw [h.1]
  decide

/-- Witness for C6: the startup prune at the millisecond reading
    1760227200000 removes the settled invoice expiring at the seconds value
    1700000000. -/
theorem claim_C6_witness :
    ((startExpiryPrune "2026-10-12T00:00:00.000Z" 1760227200000 exStartStore).fst.invoices.all
      (fun j => ! (j.id == "done"))) = true := by
  have h := claim_C6_startup_prune_clock_mismatch "2026-10-12T00:00:00.000Z" 1760227200000
    exStartStore
    (mkInvoice "done" "acct" 500 .settled none none none (some 1700000000)
      "2024-01-01T00:00:00.000Z")
    1700000000 (by decide) (by decide) (by decide) (by decide)
  rw [List.all_eq_true]
  intro j hj
  have := h j hj
  simp only [mkInvoice] at this
  simpa using this

/-- Witness for the amended C7: the settled → pending update on
    `exTransStore` succeeds and returns the row in state `pending` with a
    cleared `settled_at`. -/
theorem claim_C7_witness :
    ((updatePendingInvoiceState "2024-02-01T00:00:00.000Z" exTransStore "inv1"
        .pending none).snd).map (fun i => (i.state, i.settledAt))
      = some (.pending, none) := by
  have h := (claim_C7_update_state_unvalidated "2024-02-01T00:00:00.000Z" exTransStore
    "inv1" .pending none).2
    (mkInvoice "inv1" "acct" 100 .settled none none none none "2024-01-01T00:00:00.000Z")
    (by decide)
  obtain ⟨st', heq, -, -⟩ := h
  rw [heq]
  rfl

/-- Witness for the amended C9: the returned row `B` matches the criteria and
    is not older than the payment-hash row `A`. -/
theorem claim_C9_witness :
    matchesCriteria exFindCriteria
        (mkInvoice "B" "acct" 1 .pending none (some "lnbc1") none none
          "2024-01-02T00:00:00.000Z") = true ∧
    strLt (mkInvoice "B" "acct" 1 .pending none (some "lnbc1") none none
          "2024-01-02T00:00:00.000Z").updatedAt
        (mkInvoice "A" "acct" 1 .pending (some "hash1") none none none
          "2024-01-01T00:00:00.000Z").updatedAt = false := by
  have h := (claim_C9_find_latest_match exFindStore exFindCriteria).1
    (mkInvoice "B" "acct" 1 .pending none (some "lnbc1") none none
      "2024-01-02T00:00:00.000Z") (by decide)
  obtain ⟨-, hm, hmax⟩ := h
  refine ⟨hm, ?_⟩
  exact hmax _ (by decide) (by decide)

end NWCli
